import Mathlib

/-!
Verification of the document-node emitter of `api-documenter`
(`src/apps/api-documenter/src/markdown/CustomHtmlEmitter.ts`).

The emitter is a recursive visitor over a tree of documentation nodes that
renders HTML/Markdown text into an indent-tracking writer, threading a mutable
context (bold/italic flags, inside-table flag, options with a
filename-lookup callback).  The `CustomHtmlEmitter` class is translated
directly from the source; its collaborators that belong to this repository
but are not part of the given sources (the `IndentedWriter`, the base
`MarkdownEmitter` with `writeNodes`, `writePlainText` and `getEscapedText`)
are modelled from the specification, as marked on each definition.

Strings are manipulated as `List Char` (`String.data`) so that every
definition is executable and every concrete instance can be settled by
`decide`.
-/

/-- A character matched by the JavaScript regular-expression class `\s`
(used by the source in `/^\s?$/` and `/\s+/g`): space, tab, line and page
breaks, and the Unicode space separators. -/
def isJsWhitespace (ch : Char) : Bool :=
  ch = ' ' || ch = '\t' || ch = '\n' || ch = '\r' ||
  ch.toNat = 11 || ch.toNat = 12 || ch.toNat = 160 || ch.toNat = 0x1680 ||
  (0x2000 ≤ ch.toNat && ch.toNat ≤ 0x200A) ||
  ch.toNat = 0x2028 || ch.toNat = 0x2029 || ch.toNat = 0x202F ||
  ch.toNat = 0x205F || ch.toNat = 0x3000 || ch.toNat = 0xFEFF

/-- The JavaScript replacement `text.replace(/\s+/g, ' ')` on a character
list: every maximal run of whitespace characters becomes a single space.
The boolean argument records whether the previous character belonged to a
whitespace run. -/
def collapseWhitespaceChars : List Char → Bool → List Char
  | [], _ => []
  | ch :: rest, prev =>
    if isJsWhitespace ch then
      if prev then collapseWhitespaceChars rest true
      else ' ' :: collapseWhitespaceChars rest true
    else ch :: collapseWhitespaceChars rest false

/-- `text.replace(/\s+/g, ' ')`, as applied to link display texts by
`writeLinkTagWithUrlDestination` and `writeLinkTagWithCodeDestination`. -/
def collapseWhitespace (s : String) : String :=
  ⟨collapseWhitespaceChars s.data false⟩

/-- JavaScript `String.prototype.trim`: remove leading and trailing `\s`
characters (used by the source on fenced-code text). -/
def jsTrim (s : String) : String :=
  ⟨((s.data.dropWhile isJsWhitespace).reverse.dropWhile isJsWhitespace).reverse⟩

/-- Modelled from the spec: the Base Emitter escapes plain text "for the
output syntax (e.g., characters with syntactic meaning are
backslash-escaped)".  One character of the escaping: backslashes are
doubled, Markdown-significant punctuation is backslash-escaped, and angle
brackets become HTML entities. -/
def escapeChar (ch : Char) : List Char :=
  if ch = '\\' then ['\\', '\\']
  else if ch = '*' || ch = '#' || ch = '[' || ch = ']' || ch = '_' ||
          ch = '|' || ch = '~' then ['\\', ch]
  else if ch = '<' then '&' :: 'l' :: 't' :: [';']
  else if ch = '>' then '&' :: 'g' :: 't' :: [';']
  else [ch]

/-- Modelled from the spec: `MarkdownEmitter.getEscapedText`, the Base
Emitter's text-escaping helper (not part of the given sources). -/
def getEscapedText (s : String) : String :=
  ⟨(s.data.map escapeChar).flatten⟩

/-- Modelled from the spec (§4.1): the Indent-Tracking Writer, which is part
of this repository but not among the given sources.  It accumulates output
text, tracks whether the cursor is at column 0, and keeps a stack of
indentation prefixes; text written while indentation is pushed is prefixed
per line by the indent string. -/
structure IndentedWriter where
  buffer : List Char
  indentStack : List (List Char)
  atStartOfLine : Bool
deriving DecidableEq

/-- A fresh writer: empty buffer, no indentation, cursor at column 0. -/
def IndentedWriter.empty : IndentedWriter :=
  { buffer := [], indentStack := [], atStartOfLine := true }

/-- The current indentation prefix: the concatenation of the pushed levels. -/
def IndentedWriter.indentText (w : IndentedWriter) : List Char :=
  w.indentStack.flatten

/-- Append one character.  A newline moves the cursor to column 0; any other
character written at column 0 is preceded by the indentation prefix. -/
def IndentedWriter.writeChar (w : IndentedWriter) (ch : Char) : IndentedWriter :=
  if ch = '\n' then
    { w with buffer := w.buffer ++ ['\n'], atStartOfLine := true }
  else if w.atStartOfLine then
    { w with buffer := w.buffer ++ w.indentText ++ [ch], atStartOfLine := false }
  else
    { w with buffer := w.buffer ++ [ch], atStartOfLine := false }

/-- Append a character list, one character at a time. -/
def IndentedWriter.writeChars (w : IndentedWriter) (cs : List Char) : IndentedWriter :=
  cs.foldl IndentedWriter.writeChar w

/-- `writer.write(message)`: append literal text. -/
def IndentedWriter.write (w : IndentedWriter) (s : String) : IndentedWriter :=
  w.writeChars s.data

/-- `writer.writeLine()`: append a newline. -/
def IndentedWriter.newline (w : IndentedWriter) : IndentedWriter :=
  w.writeChar '\n'

/-- `writer.writeLine(message)`: append a full line plus newline. -/
def IndentedWriter.writeLine (w : IndentedWriter) (s : String) : IndentedWriter :=
  (w.write s).newline

/-- `writer.peekLastCharacter()`: the last character written, if any (the
source receives the empty string when the buffer is empty). -/
def IndentedWriter.peekLastCharacter (w : IndentedWriter) : Option Char :=
  w.buffer.getLast?

/-- Modelled from the spec: "force the cursor to a fresh line only if not
already at column 0". -/
def IndentedWriter.ensureNewLine (w : IndentedWriter) : IndentedWriter :=
  if w.atStartOfLine then w else w.writeChar '\n'

/-- Modelled from the spec: "force exactly one blank line separating prior
content from what follows", idempotently — nothing is added when the buffer
is empty or already ends with a blank line. -/
def IndentedWriter.ensureSkippedLine (w : IndentedWriter) : IndentedWriter :=
  if w.buffer = [] then w
  else if w.ensureNewLine.buffer.dropLast.getLast? = some '\n' then w.ensureNewLine
  else w.ensureNewLine.writeChar '\n'

/-- Modelled from the spec: push one indentation level (the writer's default
two-space indent string). -/
def IndentedWriter.increaseIndent (w : IndentedWriter) : IndentedWriter :=
  { w with indentStack := w.indentStack ++ [[' ', ' ']] }

/-- Modelled from the spec: pop one indentation level. -/
def IndentedWriter.decreaseIndent (w : IndentedWriter) : IndentedWriter :=
  { w with indentStack := w.indentStack.dropLast }

/-- A writer state is well formed when the column-0 flag agrees with the
buffer: the cursor is at column 0 exactly when nothing has been written or
the last character is a newline.  Every state reachable from
`IndentedWriter.empty` is well formed. -/
def IndentedWriter.wellFormed (w : IndentedWriter) : Prop :=
  w.atStartOfLine = true ↔ (w.buffer = [] ∨ w.buffer.getLast? = some '\n')

instance (w : IndentedWriter) : Decidable w.wellFormed := by
  unfold IndentedWriter.wellFormed; infer_instance

/-- An API entity resolved from a symbolic reference.  Of the external API
model's entity type the emitter uses only `getScopedNameWithinPackage`, the
dot-joined hierarchy of the entity within its package. -/
structure ApiItem where
  scopedNameWithinPackage : String
deriving DecidableEq

/-- `ApiItem.getScopedNameWithinPackage()`, producing a name such as
`Namespace1.Namespace2.MyClass.myMethod()`. -/
def ApiItem.getScopedNameWithinPackage (item : ApiItem) : String :=
  item.scopedNameWithinPackage

/-- A symbolic code destination.  The emitter only passes it to the external
resolver and prints it back with `emitAsTsdoc()`, so it is carried as its
TSDoc text. -/
structure DeclarationReference where
  emitAsTsdoc : String
deriving DecidableEq

/-- The result of `ApiModel.resolveDeclarationReference`: an optional
resolved entity and an optional error message. -/
structure IResolveDeclarationReferenceResult where
  resolvedApiItem : Option ApiItem
  errorMessage : Option String
deriving DecidableEq

/-- The external API model, of which the emitter calls exactly one
operation: `resolveDeclarationReference(codeDestination, contextApiItem)`. -/
structure ApiModel where
  resolveDeclarationReference :
    DeclarationReference → Option ApiItem → IResolveDeclarationReferenceResult

/-- `ICustomMarkdownEmitterOptions`: the resolution scope and the callback
mapping a resolved entity to an output filename (`undefined` when the entity
is outside the documented set). -/
structure ICustomMarkdownEmitterOptions where
  contextApiItem : Option ApiItem
  onGetFilenameForApiItem : ApiItem → Option String

/-- `IMarkdownEmitterContext`: the writer plus the transient flags threaded
through one render pass.  Warnings printed by the emitter (`console.log` in
the source) are modelled as an accumulating list. -/
structure IMarkdownEmitterContext where
  writer : IndentedWriter
  insideTable : Bool
  boldRequested : Bool
  italicRequested : Bool
  options : ICustomMarkdownEmitterOptions
  warnings : List String

/-- `context.writer.write(s)` as a context transformation. -/
def ctxWrite (c : IMarkdownEmitterContext) (s : String) : IMarkdownEmitterContext :=
  { c with writer := c.writer.write s }

/-- `context.writer.writeLine(s)` as a context transformation. -/
def ctxWriteLine (c : IMarkdownEmitterContext) (s : String) : IMarkdownEmitterContext :=
  { c with writer := c.writer.writeLine s }

/-- `context.writer.writeLine()` as a context transformation. -/
def ctxNewline (c : IMarkdownEmitterContext) : IMarkdownEmitterContext :=
  { c with writer := c.writer.newline }

/-- Report a non-fatal warning (`console.log(colors.yellow(...))` in the
source). -/
def ctxWarn (c : IMarkdownEmitterContext) (msg : String) : IMarkdownEmitterContext :=
  { c with warnings := c.warnings ++ [msg] }

/-- Translation of `CustomHtmlEmitter.writeLinkTagWithUrlDestination`
(source lines 177–184): the display text is the supplied `linkText` when it
is defined — even when it is the empty string — and the raw URL otherwise;
it is whitespace-collapsed and escaped, and an anchor to the URL is
written. -/
def writeLinkTagWithUrlDestination (linkText : Option String)
    (urlDestination : String) (c : IMarkdownEmitterContext) :
    IMarkdownEmitterContext :=
  let text : String :=
    match linkText with
    | some t => t
    | none => urlDestination
  let encodedLinkText : String := getEscapedText (collapseWhitespace text)
  ctxWrite c ("<a href=\"" ++ urlDestination ++ "\">" ++ encodedLinkText ++ "</a>")

/-- Translation of `CustomHtmlEmitter.writeLinkTagWithCodeDestination`
(source lines 187–219).  The symbolic reference is resolved against the
context entity; on success the filename callback is consulted; a defined and
non-empty `linkText` (the JavaScript `docLinkTag.linkText || ''` followed by
a length test) is used as display text, otherwise the resolved entity's
scoped name is synthesized; a zero-length resulting text yields only a
warning; resolution failure with an error message yields only a warning; in
the remaining failure cases nothing at all happens. -/
def writeLinkTagWithCodeDestination (apiModel : ApiModel)
    (linkText : Option String) (codeDestination : DeclarationReference)
    (c : IMarkdownEmitterContext) : IMarkdownEmitterContext :=
  let result : IResolveDeclarationReferenceResult :=
    apiModel.resolveDeclarationReference codeDestination c.options.contextApiItem
  match result.resolvedApiItem with
  | some resolvedApiItem =>
    match c.options.onGetFilenameForApiItem resolvedApiItem with
    | some filename =>
      let linkText0 : String :=
        match linkText with
        | some t => t
        | none => ""
      let text : String :=
        if linkText0.length = 0 then resolvedApiItem.getScopedNameWithinPackage
        else linkText0
      if 0 < text.length then
        let encodedLinkText : String := getEscapedText (collapseWhitespace text)
        ctxWrite (ctxWrite (ctxWrite c "[") encodedLinkText) ("](" ++ filename ++ ")")
      else
        ctxWarn c "WARNING: Unable to determine link text"
    | none => c
  | none =>
    match result.errorMessage with
    | some errorMessage =>
      ctxWarn c ("WARNING: Unable to resolve reference \"" ++
        codeDestination.emitAsTsdoc ++ "\": " ++ errorMessage)
    | none => c

/-- The destination of a link tag: either a literal URL or a symbolic code
reference (`DocLinkTag` carries exactly one of `urlDestination` /
`codeDestination`). -/
inductive LinkDestination where
  | url (urlDestination : String)
  | code (codeDestination : DeclarationReference)

/-- The document-node taxonomy used by the emitter, each variant carrying
exactly the fields the emitter reads.  Table cells are carried as their
content node (`DocTableCell.content`); a table has an optional header row
and a list of data rows, each a list of cells. -/
inductive DocNode where
  | plainText (text : String)
  | paragraph (nodes : List DocNode)
  | sectionNode (nodes : List DocNode)
  | linkTag (linkText : Option String) (destination : LinkDestination)
  | heading (title : String) (level : Nat)
  | noteBox (content : DocNode)
  | table (header : Option (List DocNode)) (rows : List (List DocNode))
  | emphasisSpan (bold : Bool) (italic : Bool) (nodes : List DocNode)
  | codeSpan (code : String)
  | fencedCode (code : String)
  | softBreak

/-- Modelled from the spec: the Base Emitter's PlainText case emits "the
text escaped for the output syntax, honoring current bold/italic flags from
the Context by wrapping in the syntax's emphasis markers". -/
def writePlainText (text : String) (c : IMarkdownEmitterContext) :
    IMarkdownEmitterContext :=
  let c := if c.boldRequested then ctxWrite c "<b>" else c
  let c := if c.italicRequested then ctxWrite c "<i>" else c
  let c := ctxWrite c (getEscapedText text)
  let c := if c.italicRequested then ctxWrite c "</i>" else c
  if c.boldRequested then ctxWrite c "</b>" else c

/-- The heading-level switch of the source (lines 56–62): level 1 is written
with the `h2` tag, levels 2 and 3 with `h3`, and every other level with the
catch-all `h4`. -/
def headingLevelTag (level : Nat) : String :=
  match level with
  | 1 => "h2"
  | 2 => "h3"
  | 3 => "h3"
  | _ => "h4"

/-- The column-count computation of the source's Table case (lines 93–101):
start from the header's cell count (0 without a header) and take each data
row's cell count when it is larger. -/
def tableColumnCount (header : Option (List DocNode))
    (rows : List (List DocNode)) : Nat :=
  let initial : Nat :=
    match header with
    | some cells => cells.length
    | none => 0
  rows.foldl (fun acc row => if acc < row.length then row.length else acc) initial

/-- The tail of the source's header loop once the header cells are
exhausted: each remaining column gets an empty `<th></th>` cell. -/
def writeEmptyThCells : Nat → IMarkdownEmitterContext → IMarkdownEmitterContext
  | 0, c => c
  | n + 1, c => writeEmptyThCells n (ctxWrite (ctxWrite c "<th>") "</th>")

mutual

/-- Translation of `CustomHtmlEmitter.writeNode` (source lines 48–175), with
the Base Emitter cases it falls back to (`PlainText`, `Paragraph`,
`Section`, `LinkTag`) modelled from the spec.  The source's indexed header
loop (`for i in [0, columnCount)`) is split into its header cells followed
by `columnCount - cells.length` empty cells, which is the same sequence
because `columnCount` never falls below the header's cell count;
`writeThCells_loop_eq` below proves the equality with the literal loop. -/
def writeNode (apiModel : ApiModel) :
    DocNode → IMarkdownEmitterContext → Bool → IMarkdownEmitterContext
  | .heading title level, c, _ =>
    let tag := headingLevelTag level
    let c := ctxWriteLine c ("<" ++ tag ++ " class=\"doc-heading\">" ++
      getEscapedText title ++ "</" ++ tag ++ ">")
    ctxNewline c
  | .noteBox content, c, _ =>
    let c := { c with writer := c.writer.ensureNewLine }
    let c := { c with writer := c.writer.increaseIndent }
    let c := ctxWriteLine c "<pre>"
    let c := writeNode apiModel content c false
    let c := { c with writer := c.writer.ensureNewLine }
    let c := ctxWriteLine c "</pre>"
    let c := { c with writer := c.writer.decreaseIndent }
    ctxNewline c
  | .table header rows, c, _ =>
    let c := { c with writer := c.writer.ensureSkippedLine }
    let c := { c with insideTable := true }
    let columnCount := tableColumnCount header rows
    let c := ctxWriteLine c "<table class=\"doc-table\">"
    let c := ctxWriteLine c "<thead>"
    let c := ctxWriteLine c "<tr>"
    let c :=
      match header with
      | some cells => writeEmptyThCells (columnCount - cells.length)
          (writeThCells apiModel cells c)
      | none => writeEmptyThCells columnCount c
    let c := ctxNewline c
    let c := ctxWriteLine c "</tr>"
    let c := ctxWriteLine c "</thead>"
    let c := writeRows apiModel rows c
    let c := ctxWriteLine c "</table>"
    { c with insideTable := false }
  | .emphasisSpan bold italic nodes, c, _ =>
    let oldBold := c.boldRequested
    let oldItalic := c.italicRequested
    let c := { c with boldRequested := bold, italicRequested := italic }
    let c := writeNodesAux apiModel (decide (1 < nodes.length)) nodes c
    { c with boldRequested := oldBold, italicRequested := oldItalic }
  | .codeSpan code, c, _ =>
    let c := ctxWrite c "<code class=\"doc-code-span language-javascript\">"
    let c := ctxWrite c code
    ctxWrite c "</code>"
  | .fencedCode code, c, _ =>
    let c := { c with writer := c.writer.ensureNewLine }
    let c := ctxWriteLine c "<pre class=\"doc-fenced-code\">"
    let c := ctxWriteLine c "<code class=\"language-javascript\">"
    let c := ctxWrite c (jsTrim code)
    let c := ctxWriteLine c "</code>"
    ctxWriteLine c "</pre>"
  | .softBreak, c, _ =>
    match c.writer.peekLastCharacter with
    | none => c
    | some ch => if isJsWhitespace ch then c else ctxWrite c "<br />"
  | .plainText text, c, _ => writePlainText text c
  | .paragraph nodes, c, _ =>
    let c := { c with writer := c.writer.ensureSkippedLine }
    let c := writeNodesAux apiModel (decide (1 < nodes.length)) nodes c
    { c with writer := c.writer.ensureSkippedLine }
  | .sectionNode nodes, c, _ =>
    let c := { c with writer := c.writer.ensureSkippedLine }
    let c := writeNodesAux apiModel (decide (1 < nodes.length)) nodes c
    { c with writer := c.writer.ensureSkippedLine }
  | .linkTag linkText destination, c, _ =>
    match destination with
    | .code codeDestination =>
      writeLinkTagWithCodeDestination apiModel linkText codeDestination c
    | .url urlDestination =>
      writeLinkTagWithUrlDestination linkText urlDestination c

/-- Modelled from the spec: the iteration of `MarkdownEmitter.writeNodes`,
rendering an ordered sequence of sibling nodes; the boolean sibling flag is
computed once from the sequence by the wrapper `writeNodes` below. -/
def writeNodesAux (apiModel : ApiModel) (siblings : Bool) :
    List DocNode → IMarkdownEmitterContext → IMarkdownEmitterContext
  | [], c => c
  | n :: rest, c => writeNodesAux apiModel siblings rest (writeNode apiModel n c siblings)

/-- The header-cell part of the source's Table case: each header cell is
written as `<th>`, its content, `</th>`. -/
def writeThCells (apiModel : ApiModel) :
    List DocNode → IMarkdownEmitterContext → IMarkdownEmitterContext
  | [], c => c
  | cell :: rest, c =>
    let c := ctxWrite c "<th>"
    let c := writeNode apiModel cell c false
    let c := ctxWrite c "</th>"
    writeThCells apiModel rest c

/-- The data-row loop of the source's Table case (lines 121–130): each row
is written as `<tr>`, its own cells, a newline and `</tr>`. -/
def writeRows (apiModel : ApiModel) :
    List (List DocNode) → IMarkdownEmitterContext → IMarkdownEmitterContext
  | [], c => c
  | row :: rest, c =>
    let c := ctxWrite c "<tr>"
    let c := writeRowCells apiModel row c
    let c := ctxNewline c
    let c := ctxWriteLine c "</tr>"
    writeRows apiModel rest c

/-- The cell loop of one data row: each cell is written as `<td>`, its
content, `</td>` — the loop runs over the row's own cells only. -/
def writeRowCells (apiModel : ApiModel) :
    List DocNode → IMarkdownEmitterContext → IMarkdownEmitterContext
  | [], c => c
  | cell :: rest, c =>
    let c := ctxWrite c "<td>"
    let c := writeNode apiModel cell c false
    let c := ctxWrite c "</td>"
    writeRowCells apiModel rest c

end

/-- Modelled from the spec: `MarkdownEmitter.writeNodes`, which renders each
node of the sequence with the sibling flag saying whether the node has
siblings. -/
def writeNodes (apiModel : ApiModel) (docNodes : List DocNode)
    (c : IMarkdownEmitterContext) : IMarkdownEmitterContext :=
  writeNodesAux apiModel (decide (1 < docNodes.length)) docNodes c

/-- The context at the start of one `emit` call: fresh writer, cleared
flags, no warnings. -/
def mkContext (options : ICustomMarkdownEmitterOptions) : IMarkdownEmitterContext :=
  { writer := IndentedWriter.empty, insideTable := false, boldRequested := false,
    italicRequested := false, options := options, warnings := [] }

/-- Modelled from the spec: `MarkdownEmitter.emit` renders the root node
into a fresh context and ends the output on a fresh line. -/
def emit (apiModel : ApiModel) (docNode : DocNode)
    (options : ICustomMarkdownEmitterOptions) : IMarkdownEmitterContext :=
  let c := writeNode apiModel docNode (mkContext options) false
  { c with writer := c.writer.ensureNewLine }

/-- One iteration of the source's literal header loop at index `i`:
`<th>`, the `i`-th header cell's content when the header has one, `</th>`. -/
def writeThCellAt (apiModel : ApiModel) (header : Option (List DocNode))
    (c : IMarkdownEmitterContext) (i : Nat) : IMarkdownEmitterContext :=
  let c := ctxWrite c "<th>"
  let c :=
    match header with
    | some cells =>
      match cells[i]? with
      | some cell => writeNode apiModel cell c false
      | none => c
    | none => c
  ctxWrite c "</th>"

/-- The source's header loop exactly as written (lines 107–116): for each
`i` below `columnCount`, write `<th>`, the `i`-th header cell when present,
`</th>`. -/
def writeThCellsLoop (apiModel : ApiModel) (header : Option (List DocNode))
    (columnCount : Nat) (c : IMarkdownEmitterContext) : IMarkdownEmitterContext :=
  (List.range columnCount).foldl (writeThCellAt apiModel header) c

/-- `WritesOnly c c' t` says that the step from context `c` to context `c'`
appended exactly `t` to the output buffer and changed nothing else except
the cursor-column flag. -/
def WritesOnly (c c' : IMarkdownEmitterContext) (t : List Char) : Prop :=
  c'.writer.buffer = c.writer.buffer ++ t ∧
  c'.writer.indentStack = c.writer.indentStack ∧
  c'.insideTable = c.insideTable ∧
  c'.boldRequested = c.boldRequested ∧
  c'.italicRequested = c.italicRequested ∧
  c'.options = c.options ∧
  c'.warnings = c.warnings

/-- `EmitterFrame c c'` records what one emitter step always preserves: the
bold/italic flags, the options, the indentation stack, and the fact that the
output buffer only grows. -/
def EmitterFrame (c c' : IMarkdownEmitterContext) : Prop :=
  c'.boldRequested = c.boldRequested ∧
  c'.italicRequested = c.italicRequested ∧
  c'.options = c.options ∧
  c'.writer.indentStack = c.writer.indentStack ∧
  ∃ t, c'.writer.buffer = c.writer.buffer ++ t

/-- Concatenation of the texts produced for each element of a list. -/
def concatMapStr {α : Type} (f : α → String) : List α → String
  | [] => ""
  | a :: rest => f a ++ concatMapStr f rest

/-- The text a plain-text header cell renders to. -/
def thCellText (s : String) : String :=
  "<th>" ++ getEscapedText s ++ "</th>"

/-- The text a plain-text data cell renders to. -/
def tdCellText (s : String) : String :=
  "<td>" ++ getEscapedText s ++ "</td>"

/-- `n` empty header cells. -/
def emptyThCellsText : Nat → String
  | 0 => ""
  | n + 1 => "<th></th>" ++ emptyThCellsText n

/-- A row of plain-text cells as document nodes. -/
def textCellNodes (cells : List String) : List DocNode :=
  cells.map DocNode.plainText

/-- A table whose every cell is a plain-text node. -/
def textTableNode (header : Option (List String)) (rows : List (List String)) :
    DocNode :=
  DocNode.table (header.map textCellNodes) (rows.map textCellNodes)

/-- The longest row's cell count, as the spec words it. -/
def maxRowWidth {α : Type} (rows : List (List α)) : Nat :=
  (rows.map List.length).foldr max 0

/-- The column count as the spec words it: the maximum of the header's cell
count (0 without a header) and the longest data row's cell count. -/
def specColumnCount (header : Option (List String))
    (rows : List (List String)) : Nat :=
  max
    (match header with
     | some cells => cells.length
     | none => 0)
    (maxRowWidth rows)

/-- The expected header line of a rendered plain-text table: one `<th>` cell
per header cell, then empty `<th></th>` cells up to the column count. -/
def renderedTextHeader (header : Option (List String)) (columnCount : Nat) :
    String :=
  match header with
  | some cells => concatMapStr thCellText cells ++
      emptyThCellsText (columnCount - cells.length)
  | none => emptyThCellsText columnCount

/-- The expected rendering of one plain-text data row: exactly the row's own
cells, with no padding to the column count. -/
def renderedTextRow (row : List String) : String :=
  "<tr>" ++ concatMapStr tdCellText row ++ "\n</tr>\n"

/-- The expected rendering of a whole plain-text table: the unconditional
structural header sized to `specColumnCount`, then each data row with its
own cells. -/
def renderedTextTable (header : Option (List String))
    (rows : List (List String)) : String :=
  "<table class=\"doc-table\">\n<thead>\n<tr>\n" ++
  renderedTextHeader header (specColumnCount header rows) ++
  "\n</tr>\n</thead>\n" ++
  concatMapStr renderedTextRow rows ++
  "</table>\n"

/-- A fixture API model whose resolver always succeeds with a fixed entity. -/
def resolvingApiModel : ApiModel :=
  ⟨fun _ _ => ⟨some ⟨"Foo.Bar.method()"⟩, none⟩⟩

/-- A fixture API model whose resolver always fails with an error message. -/
def failingApiModel : ApiModel :=
  ⟨fun _ _ => ⟨none, some "The member reference was not found"⟩⟩

/-- Fixture options whose filename callback finds every entity. -/
def sampleOptions : ICustomMarkdownEmitterOptions :=
  ⟨none, fun _ => some "Foo.Bar.md"⟩

/-- Fixture options whose filename callback finds no entity (entities out of
the documented set). -/
def undocumentedOptions : ICustomMarkdownEmitterOptions :=
  ⟨none, fun _ => none⟩

set_option maxRecDepth 8000


theorem writeChar_indentStack (w : IndentedWriter) (ch : Char) :
    (w.writeChar ch).indentStack = w.indentStack := by
  unfold IndentedWriter.writeChar
  split
  · rfl
  · split <;> rfl

theorem writeChar_grows (w : IndentedWriter) (ch : Char) :
    ∃ t, (w.writeChar ch).buffer = w.buffer ++ t := by
  unfold IndentedWriter.writeChar
  split
  · exact ⟨['\n'], rfl⟩
  · split
    · exact ⟨w.indentText ++ [ch], by simp⟩
    · exact ⟨[ch], rfl⟩

theorem writeChar_buffer_of_indentStack_nil (w : IndentedWriter) (ch : Char)
    (h : w.indentStack = []) : (w.writeChar ch).buffer = w.buffer ++ [ch] := by
  unfold IndentedWriter.writeChar
  split
  · simp_all
  · split
    · simp [IndentedWriter.indentText, h]
    · rfl

theorem writeChars_indentStack (cs : List Char) (w : IndentedWriter) :
    (w.writeChars cs).indentStack = w.indentStack := by
  induction cs generalizing w with
  | nil => rfl
  | cons ch rest ih =>
    simp only [IndentedWriter.writeChars, List.foldl_cons] at ih ⊢
    rw [ih, writeChar_indentStack]

theorem writeChars_grows (cs : List Char) (w : IndentedWriter) :
    ∃ t, (w.writeChars cs).buffer = w.buffer ++ t := by
  induction cs generalizing w with
  | nil => exact ⟨[], by simp [IndentedWriter.writeChars]⟩
  | cons ch rest ih =>
    obtain ⟨t1, ht1⟩ := writeChar_grows w ch
    obtain ⟨t2, ht2⟩ := ih (w.writeChar ch)
    refine ⟨t1 ++ t2, ?_⟩
    simp only [IndentedWriter.writeChars, List.foldl_cons] at ht2 ⊢
    rw [ht2, ht1, List.append_assoc]

theorem writeChars_buffer_of_indentStack_nil (cs : List Char) (w : IndentedWriter)
    (h : w.indentStack = []) : (w.writeChars cs).buffer = w.buffer ++ cs := by
  induction cs generalizing w with
  | nil => simp [IndentedWriter.writeChars]
  | cons ch rest ih =>
    simp only [IndentedWriter.writeChars, List.foldl_cons] at ih ⊢
    rw [ih (w.writeChar ch) (by rw [writeChar_indentStack]; exact h),
      writeChar_buffer_of_indentStack_nil w ch h, List.append_assoc]
    rfl

theorem writeChars_buffer_of_not_atStart (cs : List Char) (w : IndentedWriter)
    (h : w.atStartOfLine = false) (hnl : ∀ ch ∈ cs, ch ≠ '\n') :
    (w.writeChars cs).buffer = w.buffer ++ cs := by
  induction cs generalizing w with
  | nil => simp [IndentedWriter.writeChars]
  | cons ch rest ih =>
    have hch : ch ≠ '\n' := hnl ch (by simp)
    have hstep : w.writeChar ch =
        { w with buffer := w.buffer ++ [ch], atStartOfLine := false } := by
      unfold IndentedWriter.writeChar
      rw [if_neg hch, h]
      simp
    simp only [IndentedWriter.writeChars, List.foldl_cons] at ih ⊢
    rw [hstep, ih _ rfl (fun ch2 hm => hnl ch2 (by simp [hm])), List.append_assoc]
    rfl

theorem write_indentStack (w : IndentedWriter) (s : String) :
    (w.write s).indentStack = w.indentStack :=
  writeChars_indentStack s.data w

theorem write_buffer_of_indentStack_nil (w : IndentedWriter) (s : String)
    (h : w.indentStack = []) : (w.write s).buffer = w.buffer ++ s.data :=
  writeChars_buffer_of_indentStack_nil s.data w h

theorem newline_buffer (w : IndentedWriter) :
    w.newline.buffer = w.buffer ++ ['\n'] := by
  unfold IndentedWriter.newline IndentedWriter.writeChar
  rw [if_pos rfl]

theorem newline_indentStack (w : IndentedWriter) :
    w.newline.indentStack = w.indentStack :=
  writeChar_indentStack w '\n'

theorem writeLine_indentStack (w : IndentedWriter) (s : String) :
    (w.writeLine s).indentStack = w.indentStack := by
  unfold IndentedWriter.writeLine
  rw [newline_indentStack, write_indentStack]

theorem writeLine_buffer_of_indentStack_nil (w : IndentedWriter) (s : String)
    (h : w.indentStack = []) :
    (w.writeLine s).buffer = w.buffer ++ s.data ++ ['\n'] := by
  unfold IndentedWriter.writeLine
  rw [newline_buffer, write_buffer_of_indentStack_nil w s h]

theorem ensureNewLine_indentStack (w : IndentedWriter) :
    w.ensureNewLine.indentStack = w.indentStack := by
  unfold IndentedWriter.ensureNewLine
  split
  · rfl
  · exact writeChar_indentStack w '\n'

theorem ensureNewLine_grows (w : IndentedWriter) :
    ∃ t, w.ensureNewLine.buffer = w.buffer ++ t := by
  unfold IndentedWriter.ensureNewLine
  split
  · exact ⟨[], by simp⟩
  · exact writeChar_grows w '\n'

theorem ensureSkippedLine_indentStack (w : IndentedWriter) :
    w.ensureSkippedLine.indentStack = w.indentStack := by
  unfold IndentedWriter.ensureSkippedLine
  split
  · rfl
  · split
    · exact ensureNewLine_indentStack w
    · rw [writeChar_indentStack, ensureNewLine_indentStack]

theorem ensureSkippedLine_grows (w : IndentedWriter) :
    ∃ t, w.ensureSkippedLine.buffer = w.buffer ++ t := by
  unfold IndentedWriter.ensureSkippedLine
  obtain ⟨t1, ht1⟩ := ensureNewLine_grows w
  split
  · exact ⟨[], by simp⟩
  · split
    · exact ⟨t1, ht1⟩
    · obtain ⟨t2, ht2⟩ := writeChar_grows w.ensureNewLine '\n'
      exact ⟨t1 ++ t2, by rw [ht2, ht1, List.append_assoc]⟩

theorem ensureSkippedLine_of_empty (w : IndentedWriter) (h : w.buffer = []) :
    w.ensureSkippedLine = w := by
  unfold IndentedWriter.ensureSkippedLine
  rw [if_pos h]

theorem writeChar_newline_buffer (w : IndentedWriter) :
    (w.writeChar '\n').buffer = w.buffer ++ ['\n'] := by
  unfold IndentedWriter.writeChar
  rw [if_pos rfl]

/-- A well-formed writer with a non-empty buffer ends with a blank line after
`ensureSkippedLine`: the buffer's last two characters are newlines. -/
theorem ensureSkippedLine_blank (w : IndentedWriter) (hwf : w.wellFormed)
    (h : w.buffer ≠ []) :
    ∃ core, w.ensureSkippedLine.buffer = core ++ ['\n', '\n'] := by
  unfold IndentedWriter.ensureSkippedLine
  rw [if_neg h]
  rcases hlast : w.buffer.getLast? with _ | ch
  · exact absurd (List.getLast?_eq_none_iff.mp hlast) h
  by_cases hnl : ch = '\n'
  · -- the buffer already ends with a newline, so the cursor is at column 0
    subst hnl
    have hstart : w.atStartOfLine = true := hwf.mpr (Or.inr hlast)
    have hens : w.ensureNewLine = w := by
      unfold IndentedWriter.ensureNewLine
      rw [if_pos hstart]
    obtain ⟨ys, hys⟩ := List.getLast?_eq_some_iff.mp hlast
    rw [hens]
    rcases hlast2 : w.buffer.dropLast.getLast? with _ | ch2
    · -- the buffer is a single newline: one more newline is appended
      rw [if_neg (by simp [hlast2])]
      rw [writeChar_newline_buffer, hys]
      have hys0 : ys = [] := by
        rw [hys, List.dropLast_concat] at hlast2
        exact List.getLast?_eq_none_iff.mp hlast2
      exact ⟨ys, by rw [hys0]; simp⟩
    by_cases hnl2 : ch2 = '\n'
    · -- the buffer already ends with a blank line
      subst hnl2
      rw [if_pos rfl]
      rw [hys, List.dropLast_concat] at hlast2
      obtain ⟨zs, hzs⟩ := List.getLast?_eq_some_iff.mp hlast2
      exact ⟨zs, by rw [hys, hzs]; simp⟩
    · rw [if_neg (by simp [hnl2])]
      rw [writeChar_newline_buffer, hys]
      exact ⟨ys, by simp⟩
  · -- the last character is not a newline: the cursor is mid-line and two
    -- newlines are appended
    have hstart : w.atStartOfLine = false := by
      cases hs : w.atStartOfLine with
      | false => rfl
      | true =>
        rcases hwf.mp hs with h1 | h1
        · exact absurd h1 h
        · rw [hlast] at h1
          exact absurd (Option.some.inj h1) hnl
    have hens : w.ensureNewLine = w.writeChar '\n' := by
      unfold IndentedWriter.ensureNewLine
      rw [hstart]
      simp
    rw [hens]
    have hdrop : (w.writeChar '\n').buffer.dropLast.getLast? = some ch := by
      rw [writeChar_newline_buffer, List.dropLast_concat, hlast]
    rw [if_neg (by rw [hdrop]; simp [hnl])]
    rw [writeChar_newline_buffer, writeChar_newline_buffer]
    exact ⟨w.buffer, by simp⟩

@[simp] theorem ctxWrite_insideTable (c : IMarkdownEmitterContext) (s : String) :
    (ctxWrite c s).insideTable = c.insideTable := rfl

@[simp] theorem ctxWrite_boldRequested (c : IMarkdownEmitterContext) (s : String) :
    (ctxWrite c s).boldRequested = c.boldRequested := rfl

@[simp] theorem ctxWrite_italicRequested (c : IMarkdownEmitterContext) (s : String) :
    (ctxWrite c s).italicRequested = c.italicRequested := rfl

@[simp] theorem ctxWrite_options (c : IMarkdownEmitterContext) (s : String) :
    (ctxWrite c s).options = c.options := rfl

@[simp] theorem ctxWrite_warnings (c : IMarkdownEmitterContext) (s : String) :
    (ctxWrite c s).warnings = c.warnings := rfl

theorem writesOnly_refl (c : IMarkdownEmitterContext) : WritesOnly c c [] := by
  refine ⟨by simp, rfl, rfl, rfl, rfl, rfl, rfl⟩

theorem writesOnly_trans {c c1 c2 : IMarkdownEmitterContext} {t1 t2 : List Char}
    (h1 : WritesOnly c c1 t1) (h2 : WritesOnly c1 c2 t2) :
    WritesOnly c c2 (t1 ++ t2) := by
  obtain ⟨b1, i1, p1, q1, r1, o1, w1⟩ := h1
  obtain ⟨b2, i2, p2, q2, r2, o2, w2⟩ := h2
  exact ⟨by rw [b2, b1, List.append_assoc], by rw [i2, i1], by rw [p2, p1],
    by rw [q2, q1], by rw [r2, r1], by rw [o2, o1], by rw [w2, w1]⟩

theorem writesOnly_ctxWrite (c : IMarkdownEmitterContext) (s : String)
    (h : c.writer.indentStack = []) : WritesOnly c (ctxWrite c s) s.data :=
  ⟨write_buffer_of_indentStack_nil c.writer s h, write_indentStack c.writer s,
    rfl, rfl, rfl, rfl, rfl⟩

theorem writesOnly_ctxWriteLine (c : IMarkdownEmitterContext) (s : String)
    (h : c.writer.indentStack = []) :
    WritesOnly c (ctxWriteLine c s) (s.data ++ ['\n']) :=
  ⟨by rw [show (ctxWriteLine c s).writer.buffer = (c.writer.writeLine s).buffer from rfl,
      writeLine_buffer_of_indentStack_nil c.writer s h, List.append_assoc],
    writeLine_indentStack c.writer s, rfl, rfl, rfl, rfl, rfl⟩

theorem writesOnly_ctxNewline (c : IMarkdownEmitterContext) :
    WritesOnly c (ctxNewline c) ['\n'] :=
  ⟨newline_buffer c.writer, newline_indentStack c.writer, rfl, rfl, rfl, rfl, rfl⟩

theorem writesOnly_writePlainText (c : IMarkdownEmitterContext) (text : String)
    (hstack : c.writer.indentStack = []) (hb : c.boldRequested = false)
    (hi : c.italicRequested = false) :
    WritesOnly c (writePlainText text c) (getEscapedText text).data := by
  unfold writePlainText
  simp only [hb, hi, ctxWrite_boldRequested, ctxWrite_italicRequested,
    Bool.false_eq_true, if_false]
  exact writesOnly_ctxWrite c (getEscapedText text) hstack

theorem emitterFrame_refl (c : IMarkdownEmitterContext) : EmitterFrame c c :=
  ⟨rfl, rfl, rfl, rfl, [], by simp⟩

theorem emitterFrame_trans {c c1 c2 : IMarkdownEmitterContext}
    (h1 : EmitterFrame c c1) (h2 : EmitterFrame c1 c2) : EmitterFrame c c2 := by
  obtain ⟨q1, r1, o1, i1, t1, b1⟩ := h1
  obtain ⟨q2, r2, o2, i2, t2, b2⟩ := h2
  exact ⟨by rw [q2, q1], by rw [r2, r1], by rw [o2, o1], by rw [i2, i1],
    t1 ++ t2, by rw [b2, b1, List.append_assoc]⟩

theorem emitterFrame_of_writesOnly {c c1 : IMarkdownEmitterContext} {t : List Char}
    (h : WritesOnly c c1 t) : EmitterFrame c c1 := by
  obtain ⟨b1, i1, p1, q1, r1, o1, w1⟩ := h
  exact ⟨q1, r1, o1, i1, t, b1⟩

theorem emitterFrame_ctxWrite (c : IMarkdownEmitterContext) (s : String) :
    EmitterFrame c (ctxWrite c s) :=
  ⟨rfl, rfl, rfl, write_indentStack c.writer s, writeChars_grows s.data c.writer⟩

theorem emitterFrame_ctxWriteLine (c : IMarkdownEmitterContext) (s : String) :
    EmitterFrame c (ctxWriteLine c s) := by
  refine ⟨rfl, rfl, rfl, writeLine_indentStack c.writer s, ?_⟩
  obtain ⟨t, ht⟩ := writeChars_grows s.data c.writer
  refine ⟨t ++ ['\n'], ?_⟩
  show (c.writer.writeLine s).buffer = _
  unfold IndentedWriter.writeLine
  rw [newline_buffer]
  show (c.writer.writeChars s.data).buffer ++ ['\n'] = _
  rw [ht, List.append_assoc]

theorem emitterFrame_ctxNewline (c : IMarkdownEmitterContext) :
    EmitterFrame c (ctxNewline c) :=
  ⟨rfl, rfl, rfl, newline_indentStack c.writer, ['\n'], newline_buffer c.writer⟩

theorem emitterFrame_ctxWarn (c : IMarkdownEmitterContext) (msg : String) :
    EmitterFrame c (ctxWarn c msg) :=
  ⟨rfl, rfl, rfl, rfl, [], by simp [ctxWarn]⟩

theorem emitterFrame_ensureNewLine (c : IMarkdownEmitterContext) :
    EmitterFrame c { c with writer := c.writer.ensureNewLine } :=
  ⟨rfl, rfl, rfl, ensureNewLine_indentStack c.writer, ensureNewLine_grows c.writer⟩

theorem emitterFrame_ensureSkippedLine (c : IMarkdownEmitterContext) :
    EmitterFrame c { c with writer := c.writer.ensureSkippedLine } :=
  ⟨rfl, rfl, rfl, ensureSkippedLine_indentStack c.writer, ensureSkippedLine_grows c.writer⟩

theorem emitterFrame_flagWrite (c : IMarkdownEmitterContext) (b : Bool) (s : String) :
    EmitterFrame c (if b = true then ctxWrite c s else c) := by
  cases b
  · simpa using emitterFrame_refl c
  · simpa using emitterFrame_ctxWrite c s

theorem emitterFrame_writePlainText (c : IMarkdownEmitterContext) (text : String) :
    EmitterFrame c (writePlainText text c) := by
  unfold writePlainText
  exact emitterFrame_trans (emitterFrame_flagWrite c c.boldRequested "<b>")
    (emitterFrame_trans (emitterFrame_flagWrite _ _ "<i>")
      (emitterFrame_trans (emitterFrame_ctxWrite _ (getEscapedText text))
        (emitterFrame_trans (emitterFrame_flagWrite _ _ "</i>")
          (emitterFrame_flagWrite _ _ "</b>"))))

theorem emitterFrame_writeLinkTagWithUrlDestination
    (linkText : Option String) (urlDestination : String)
    (c : IMarkdownEmitterContext) :
    EmitterFrame c (writeLinkTagWithUrlDestination linkText urlDestination c) := by
  unfold writeLinkTagWithUrlDestination
  exact emitterFrame_ctxWrite c _

theorem emitterFrame_writeLinkTagWithCodeDestination (apiModel : ApiModel)
    (linkText : Option String) (codeDestination : DeclarationReference)
    (c : IMarkdownEmitterContext) :
    EmitterFrame c (writeLinkTagWithCodeDestination apiModel linkText codeDestination c) := by
  simp only [writeLinkTagWithCodeDestination]
  split
  · split
    · split
      · split
        · exact emitterFrame_trans (emitterFrame_ctxWrite _ _)
            (emitterFrame_trans (emitterFrame_ctxWrite _ _) (emitterFrame_ctxWrite _ _))
        · exact emitterFrame_ctxWarn _ _
      · split
        · exact emitterFrame_trans (emitterFrame_ctxWrite _ _)
            (emitterFrame_trans (emitterFrame_ctxWrite _ _) (emitterFrame_ctxWrite _ _))
        · exact emitterFrame_ctxWarn _ _
    · exact emitterFrame_refl _
  · split
    · exact emitterFrame_ctxWarn _ _
    · exact emitterFrame_refl _

theorem emitterFrame_writeEmptyThCells (n : Nat) (c : IMarkdownEmitterContext) :
    EmitterFrame c (writeEmptyThCells n c) := by
  induction n generalizing c with
  | zero => exact emitterFrame_refl c
  | succ k ih =>
    exact emitterFrame_trans
      (emitterFrame_trans (emitterFrame_ctxWrite c "<th>") (emitterFrame_ctxWrite _ "</th>"))
      (ih _)

theorem emitterFrame_setInsideTable (c : IMarkdownEmitterContext) (b : Bool) :
    EmitterFrame c { c with insideTable := b } :=
  ⟨rfl, rfl, rfl, rfl, [], by simp⟩

/-- Pushing one indentation level, doing framed work, and popping the level
again is itself framed. -/
theorem emitterFrame_indent_sandwich {c c4 : IMarkdownEmitterContext}
    (hmid : EmitterFrame { c with writer := c.writer.increaseIndent } c4) :
    EmitterFrame c { c4 with writer := c4.writer.decreaseIndent } := by
  obtain ⟨hb, hi, ho, hs, t, hbuf⟩ := hmid
  refine ⟨hb, hi, ho, ?_, t, hbuf⟩
  show c4.writer.indentStack.dropLast = _
  rw [hs]
  exact List.dropLast_concat

mutual

/-- Every emitter step preserves the bold/italic flags, the options and the
indentation stack, and only appends to the output buffer. -/
theorem writeNode_frame (apiModel : ApiModel) :
    ∀ (n : DocNode) (c : IMarkdownEmitterContext) (s : Bool),
      EmitterFrame c (writeNode apiModel n c s)
  | .heading title level, c, s => by
    simp only [writeNode]
    exact emitterFrame_trans (emitterFrame_ctxWriteLine c _) (emitterFrame_ctxNewline _)
  | .noteBox content, c, s => by
    simp only [writeNode]
    exact emitterFrame_trans (emitterFrame_ensureNewLine c)
      (emitterFrame_trans
        (emitterFrame_indent_sandwich
          (emitterFrame_trans (emitterFrame_ctxWriteLine _ "<pre>")
            (emitterFrame_trans (writeNode_frame apiModel content _ false)
              (emitterFrame_trans (emitterFrame_ensureNewLine _)
                (emitterFrame_ctxWriteLine _ "</pre>")))))
        (emitterFrame_ctxNewline _))
  | .table header rows, c, s => by
    rcases header with _ | cells
    · simp only [writeNode]
      exact emitterFrame_trans (emitterFrame_ensureSkippedLine c)
        (emitterFrame_trans (emitterFrame_setInsideTable _ true)
          (emitterFrame_trans (emitterFrame_ctxWriteLine _ _)
            (emitterFrame_trans (emitterFrame_ctxWriteLine _ _)
              (emitterFrame_trans (emitterFrame_ctxWriteLine _ _)
                (emitterFrame_trans (emitterFrame_writeEmptyThCells _ _)
                  (emitterFrame_trans (emitterFrame_ctxNewline _)
                    (emitterFrame_trans (emitterFrame_ctxWriteLine _ _)
                      (emitterFrame_trans (emitterFrame_ctxWriteLine _ _)
                        (emitterFrame_trans (writeRows_frame apiModel rows _)
                          (emitterFrame_trans (emitterFrame_ctxWriteLine _ _)
                            (emitterFrame_setInsideTable _ false)))))))))))
    · simp only [writeNode]
      exact emitterFrame_trans (emitterFrame_ensureSkippedLine c)
        (emitterFrame_trans (emitterFrame_setInsideTable _ true)
          (emitterFrame_trans (emitterFrame_ctxWriteLine _ _)
            (emitterFrame_trans (emitterFrame_ctxWriteLine _ _)
              (emitterFrame_trans (emitterFrame_ctxWriteLine _ _)
                (emitterFrame_trans (writeThCells_frame apiModel cells _)
                  (emitterFrame_trans (emitterFrame_writeEmptyThCells _ _)
                    (emitterFrame_trans (emitterFrame_ctxNewline _)
                      (emitterFrame_trans (emitterFrame_ctxWriteLine _ _)
                        (emitterFrame_trans (emitterFrame_ctxWriteLine _ _)
                          (emitterFrame_trans (writeRows_frame apiModel rows _)
                            (emitterFrame_trans (emitterFrame_ctxWriteLine _ _)
                              (emitterFrame_setInsideTable _ false))))))))))))
  | .emphasisSpan b i ns, c, s => by
    simp only [writeNode]
    obtain ⟨hb, hi, ho, hs, t, hbuf⟩ := writeNodesAux_frame apiModel (decide (1 < ns.length))
      ns { c with boldRequested := b, italicRequested := i }
    exact ⟨rfl, rfl, ho, hs, t, hbuf⟩
  | .codeSpan code, c, s => by
    simp only [writeNode]
    exact emitterFrame_trans (emitterFrame_ctxWrite c _)
      (emitterFrame_trans (emitterFrame_ctxWrite _ code) (emitterFrame_ctxWrite _ _))
  | .fencedCode code, c, s => by
    simp only [writeNode]
    exact emitterFrame_trans (emitterFrame_ensureNewLine c)
      (emitterFrame_trans (emitterFrame_ctxWriteLine _ _)
        (emitterFrame_trans (emitterFrame_ctxWriteLine _ _)
          (emitterFrame_trans (emitterFrame_ctxWrite _ _)
            (emitterFrame_trans (emitterFrame_ctxWriteLine _ _)
              (emitterFrame_ctxWriteLine _ _)))))
  | .softBreak, c, s => by
    simp only [writeNode]
    split
    · exact emitterFrame_refl c
    · split
      · exact emitterFrame_refl c
      · exact emitterFrame_ctxWrite c _
  | .plainText text, c, s => by
    simp only [writeNode]
    exact emitterFrame_writePlainText c text
  | .paragraph ns, c, s => by
    simp only [writeNode]
    exact emitterFrame_trans (emitterFrame_ensureSkippedLine c)
      (emitterFrame_trans (writeNodesAux_frame apiModel _ ns _)
        (emitterFrame_ensureSkippedLine _))
  | .sectionNode ns, c, s => by
    simp only [writeNode]
    exact emitterFrame_trans (emitterFrame_ensureSkippedLine c)
      (emitterFrame_trans (writeNodesAux_frame apiModel _ ns _)
        (emitterFrame_ensureSkippedLine _))
  | .linkTag lt (.url u), c, s => by
    simp only [writeNode]
    exact emitterFrame_writeLinkTagWithUrlDestination lt u c
  | .linkTag lt (.code cd), c, s => by
    simp only [writeNode]
    exact emitterFrame_writeLinkTagWithCodeDestination apiModel lt cd c

theorem writeNodesAux_frame (apiModel : ApiModel) (siblings : Bool) :
    ∀ (ns : List DocNode) (c : IMarkdownEmitterContext),
      EmitterFrame c (writeNodesAux apiModel siblings ns c)
  | [], c => by
    simp only [writeNodesAux]
    exact emitterFrame_refl c
  | n :: rest, c => by
    simp only [writeNodesAux]
    exact emitterFrame_trans (writeNode_frame apiModel n c siblings)
      (writeNodesAux_frame apiModel siblings rest _)

theorem writeThCells_frame (apiModel : ApiModel) :
    ∀ (cells : List DocNode) (c : IMarkdownEmitterContext),
      EmitterFrame c (writeThCells apiModel cells c)
  | [], c => by
    simp only [writeThCells]
    exact emitterFrame_refl c
  | cell :: rest, c => by
    simp only [writeThCells]
    exact emitterFrame_trans (emitterFrame_ctxWrite c "<th>")
      (emitterFrame_trans (writeNode_frame apiModel cell _ false)
        (emitterFrame_trans (emitterFrame_ctxWrite _ "</th>")
          (writeThCells_frame apiModel rest _)))

theorem writeRows_frame (apiModel : ApiModel) :
    ∀ (rows : List (List DocNode)) (c : IMarkdownEmitterContext),
      EmitterFrame c (writeRows apiModel rows c)
  | [], c => by
    simp only [writeRows]
    exact emitterFrame_refl c
  | row :: rest, c => by
    simp only [writeRows]
    exact emitterFrame_trans (emitterFrame_ctxWrite c "<tr>")
      (emitterFrame_trans (writeRowCells_frame apiModel row _)
        (emitterFrame_trans (emitterFrame_ctxNewline _)
          (emitterFrame_trans (emitterFrame_ctxWriteLine _ "</tr>")
            (writeRows_frame apiModel rest _))))

theorem writeRowCells_frame (apiModel : ApiModel) :
    ∀ (row : List DocNode) (c : IMarkdownEmitterContext),
      EmitterFrame c (writeRowCells apiModel row c)
  | [], c => by
    simp only [writeRowCells]
    exact emitterFrame_refl c
  | cell :: rest, c => by
    simp only [writeRowCells]
    exact emitterFrame_trans (emitterFrame_ctxWrite c "<td>")
      (emitterFrame_trans (writeNode_frame apiModel cell _ false)
        (emitterFrame_trans (emitterFrame_ctxWrite _ "</td>")
          (writeRowCells_frame apiModel rest _)))

end

theorem writesOnly_cast {c c' : IMarkdownEmitterContext} {t t2 : List Char}
    (h : WritesOnly c c' t) (he : t = t2) : WritesOnly c c' t2 := he ▸ h

theorem writesOnly_stack_nil {c c' : IMarkdownEmitterContext} {t : List Char}
    (h : WritesOnly c c' t) (hs : c.writer.indentStack = []) :
    c'.writer.indentStack = [] := by rw [h.2.1]; exact hs

theorem writesOnly_bold_false {c c' : IMarkdownEmitterContext} {t : List Char}
    (h : WritesOnly c c' t) (hb : c.boldRequested = false) :
    c'.boldRequested = false := by rw [h.2.2.2.1]; exact hb

theorem writesOnly_italic_false {c c' : IMarkdownEmitterContext} {t : List Char}
    (h : WritesOnly c c' t) (hi : c.italicRequested = false) :
    c'.italicRequested = false := by rw [h.2.2.2.2.1]; exact hi

/-- C6: for every Heading node the tag is the offset-by-one clamped mapping —
level 1 renders as `h2`, levels 2 and 3 as `h3`, any other level as the
catch-all `h4` — and the heading line is followed by exactly one blank line
(the final `['\n', '\n']`: the heading line's own newline plus one empty
line). -/
theorem heading_tag_mapping_and_blank_line (apiModel : ApiModel)
    (title : String) (level : Nat) (c : IMarkdownEmitterContext) (s : Bool)
    (hstack : c.writer.indentStack = []) :
    (level = 1 → headingLevelTag level = "h2") ∧
    ((level = 2 ∨ level = 3) → headingLevelTag level = "h3") ∧
    (4 ≤ level → headingLevelTag level = "h4") ∧
    (writeNode apiModel (DocNode.heading title level) c s).writer.buffer =
      c.writer.buffer ++
        ("<" ++ headingLevelTag level ++ " class=\"doc-heading\">" ++
          getEscapedText title ++ "</" ++ headingLevelTag level ++ ">").data ++
        ['\n', '\n'] := by
  refine ⟨?_, ?_, ?_, ?_⟩
  · rintro rfl
    rfl
  · rintro (rfl | rfl) <;> rfl
  · intro h
    rcases level with _ | _ | _ | _ | k
    · omega
    · omega
    · omega
    · omega
    · rfl
  · simp only [writeNode]
    rw [(writesOnly_trans (writesOnly_ctxWriteLine c _ hstack) (writesOnly_ctxNewline _)).1]
    simp

/-- C9: CodeSpan text is written literally (`code.data` appears unescaped
and untrimmed between the tags), while FencedCode text is written literally
but trimmed of leading and trailing whitespace. -/
theorem code_text_literal_and_trimming (apiModel : ApiModel) (code : String)
    (c : IMarkdownEmitterContext) (s : Bool)
    (hstack : c.writer.indentStack = []) :
    ((writeNode apiModel (DocNode.codeSpan code) c s).writer.buffer =
      c.writer.buffer ++ ("<code class=\"doc-code-span language-javascript\">").data ++
        code.data ++ ("</code>").data) ∧
    ((writeNode apiModel (DocNode.fencedCode code) c s).writer.buffer =
      c.writer.ensureNewLine.buffer ++
        ("<pre class=\"doc-fenced-code\">\n<code class=\"language-javascript\">\n").data ++
        (jsTrim code).data ++ ("</code>\n</pre>\n").data) := by
  constructor
  · simp only [writeNode]
    have h1 := writesOnly_ctxWrite c "<code class=\"doc-code-span language-javascript\">" hstack
    have h2 := writesOnly_ctxWrite _ code (writesOnly_stack_nil h1 hstack)
    have h3 := writesOnly_ctxWrite _ "</code>"
      (writesOnly_stack_nil h2 (writesOnly_stack_nil h1 hstack))
    rw [(writesOnly_trans h1 (writesOnly_trans h2 h3)).1]
    simp
  · simp only [writeNode]
    have hstack1 : ({ c with writer := c.writer.ensureNewLine } :
        IMarkdownEmitterContext).writer.indentStack = [] := by
      show c.writer.ensureNewLine.indentStack = []
      rw [ensureNewLine_indentStack]
      exact hstack
    have h1 := writesOnly_ctxWriteLine { c with writer := c.writer.ensureNewLine }
      "<pre class=\"doc-fenced-code\">" hstack1
    have h2 := writesOnly_ctxWriteLine _ "<code class=\"language-javascript\">"
      (writesOnly_stack_nil h1 hstack1)
    have h3 := writesOnly_ctxWrite _ (jsTrim code)
      (writesOnly_stack_nil h2 (writesOnly_stack_nil h1 hstack1))
    have h4 := writesOnly_ctxWriteLine _ "</code>"
      (writesOnly_stack_nil h3 (writesOnly_stack_nil h2 (writesOnly_stack_nil h1 hstack1)))
    have h5 := writesOnly_ctxWriteLine _ "</pre>"
      (writesOnly_stack_nil h4 (writesOnly_stack_nil h3
        (writesOnly_stack_nil h2 (writesOnly_stack_nil h1 hstack1))))
    rw [(writesOnly_trans h1 (writesOnly_trans h2 (writesOnly_trans h3
      (writesOnly_trans h4 h5)))).1]
    show c.writer.ensureNewLine.buffer ++ _ = _
    simp

/-- C8: on a well-formed writer, a SoftBreak emits the explicit `<br />`
marker exactly when the last written character exists and is not whitespace;
when the buffer is empty or ends in whitespace, the SoftBreak leaves the
context untouched. -/
theorem softBreak_break_marker (apiModel : ApiModel)
    (c : IMarkdownEmitterContext) (s : Bool) (hwf : c.writer.wellFormed) :
    (∀ ch, c.writer.peekLastCharacter = some ch → isJsWhitespace ch = false →
      (writeNode apiModel DocNode.softBreak c s).writer.buffer =
        c.writer.buffer ++ ("<br />").data) ∧
    (c.writer.peekLastCharacter = none →
      writeNode apiModel DocNode.softBreak c s = c) ∧
    (∀ ch, c.writer.peekLastCharacter = some ch → isJsWhitespace ch = true →
      writeNode apiModel DocNode.softBreak c s = c) := by
  refine ⟨?_, ?_, ?_⟩
  · intro ch hch hws
    have hchnl : ch ≠ '\n' := by
      intro h
      rw [h] at hws
      exact absurd hws (by decide)
    have hne : c.writer.buffer ≠ [] := by
      intro h
      rw [show c.writer.peekLastCharacter = c.writer.buffer.getLast? from rfl,
        h] at hch
      simp at hch
    have hstart : c.writer.atStartOfLine = false := by
      cases hs2 : c.writer.atStartOfLine with
      | false => rfl
      | true =>
        rcases hwf.mp hs2 with h1 | h1
        · exact absurd h1 hne
        · rw [show c.writer.peekLastCharacter = c.writer.buffer.getLast? from rfl,
            h1] at hch
          exact absurd (Option.some.inj hch).symm hchnl
    simp only [writeNode]
    rw [hch]
    simp only [hws, Bool.false_eq_true, if_false]
    show (c.writer.write "<br />").buffer = _
    exact writeChars_buffer_of_not_atStart _ c.writer hstart (by decide)
  · intro h
    simp only [writeNode]
    rw [h]
  · intro ch hch hws
    simp only [writeNode]
    rw [hch]
    simp only [hws, if_true]

/-- C8 witness: a writer whose buffer ends with a non-whitespace character
gets the explicit break marker appended. -/
theorem softBreak_break_marker_witness :
    ({ mkContext sampleOptions with
        writer := ⟨['a', 'b'], [], false⟩ } :
      IMarkdownEmitterContext).writer.wellFormed ∧
    (writeNode failingApiModel DocNode.softBreak
        { mkContext sampleOptions with writer := ⟨['a', 'b'], [], false⟩ }
        false).writer.buffer =
      ['a', 'b'] ++ ("<br />").data :=
  ⟨by decide,
    (softBreak_break_marker failingApiModel
      { mkContext sampleOptions with writer := ⟨['a', 'b'], [], false⟩ }
      false (by decide)).1 'b' (by decide) (by decide)⟩

/-- C7 counterexample: an explicitly supplied but empty display text is NOT
replaced by the raw URL — the anchor is emitted with an empty body, so the
claim's "defaults to the raw destination URL when the display text is
empty" fails on the empty-but-defined display text. -/
theorem url_link_empty_text_counterexample :
    (writeLinkTagWithUrlDestination (some "") "https://example.com/x"
        (mkContext sampleOptions)).writer.buffer =
      ("<a href=\"https://example.com/x\"></a>").data ∧
    (writeLinkTagWithUrlDestination (some "") "https://example.com/x"
        (mkContext sampleOptions)).writer.buffer ≠
      ("<a href=\"https://example.com/x\">https://example.com/x</a>").data := by
  exact ⟨by decide, by decide⟩

/-- C7 (amended): the display text defaults to the raw URL only when no
display text was supplied; a supplied display text is used as given — even
when empty — and is always whitespace-collapsed and escaped inside an
anchor to the destination URL; no warning is reported. -/
theorem url_link_display_text (linkText : Option String) (urlDestination : String)
    (c : IMarkdownEmitterContext) (hstack : c.writer.indentStack = []) :
    (writeLinkTagWithUrlDestination linkText urlDestination c).writer.buffer =
      c.writer.buffer ++
        ("<a href=\"" ++ urlDestination ++ "\">" ++
          getEscapedText (collapseWhitespace
            (match linkText with
             | some t => t
             | none => urlDestination)) ++ "</a>").data ∧
    (writeLinkTagWithUrlDestination linkText urlDestination c).warnings =
      c.warnings := by
  unfold writeLinkTagWithUrlDestination
  have h := writesOnly_ctxWrite c ("<a href=\"" ++ urlDestination ++ "\">" ++
    getEscapedText (collapseWhitespace
      (match linkText with
       | some t => t
       | none => urlDestination)) ++ "</a>") hstack
  exact ⟨h.1, h.2.2.2.2.2.2⟩

/-- C7 witness: with no supplied display text the raw URL becomes the link
body. -/
theorem url_link_display_text_witness :
    (mkContext sampleOptions).writer.indentStack = [] ∧
    ((writeLinkTagWithUrlDestination none "https://x.dev"
        (mkContext sampleOptions)).writer.buffer =
      [] ++ ("<a href=\"https://x.dev\">" ++
        getEscapedText (collapseWhitespace "https://x.dev") ++ "</a>").data ∧
    (writeLinkTagWithUrlDestination none "https://x.dev"
        (mkContext sampleOptions)).warnings = []) :=
  ⟨by decide, url_link_display_text none "https://x.dev" (mkContext sampleOptions) (by decide)⟩

/-- C1 counterexample: a supplied whitespace-only display text is empty
after trimming, yet the emitter still writes a hyperlink with the collapsed
single-space body and reports no warning — the claim's "empty after
trimming → emit nothing and warn" fails because the source tests the raw
length without trimming. -/
theorem code_link_whitespace_text_counterexample :
    jsTrim " " = "" ∧
    (writeLinkTagWithCodeDestination resolvingApiModel (some " ")
        ⟨"Foo.Bar.method"⟩ (mkContext sampleOptions)).writer.buffer =
      ("[ ](Foo.Bar.md)").data ∧
    (writeLinkTagWithCodeDestination resolvingApiModel (some " ")
        ⟨"Foo.Bar.method"⟩ (mkContext sampleOptions)).warnings = [] := by
  exact ⟨by decide, by decide, by decide⟩

/-- C1 (amended): when resolution succeeds and the filename lookup returns a
filename, a defined non-empty display text is used as supplied (without any
trimming), an absent or empty display text is replaced by the resolved
entity's scoped name, and only a zero-length resulting text suppresses the
link and reports the "Unable to determine link text" warning; otherwise the
hyperlink to the filename carries the whitespace-collapsed escaped display
text and no warning is reported. -/
theorem code_link_resolved_with_filename (apiModel : ApiModel)
    (linkText : Option String) (codeDestination : DeclarationReference)
    (c : IMarkdownEmitterContext) (item : ApiItem) (filename text : String)
    (hres : (apiModel.resolveDeclarationReference codeDestination
      c.options.contextApiItem).resolvedApiItem = some item)
    (hfile : c.options.onGetFilenameForApiItem item = some filename)
    (hstack : c.writer.indentStack = [])
    (htext : text =
      if (match linkText with
          | some t => t
          | none => "").length = 0 then item.getScopedNameWithinPackage
      else match linkText with
          | some t => t
          | none => "") :
    (0 < text.length →
      (writeLinkTagWithCodeDestination apiModel linkText codeDestination c).writer.buffer =
        c.writer.buffer ++
          ("[" ++ getEscapedText (collapseWhitespace text) ++ "](" ++
            filename ++ ")").data ∧
      (writeLinkTagWithCodeDestination apiModel linkText codeDestination c).warnings =
        c.warnings) ∧
    (text.length = 0 →
      (writeLinkTagWithCodeDestination apiModel linkText codeDestination c).writer =
        c.writer ∧
      (writeLinkTagWithCodeDestination apiModel linkText codeDestination c).warnings =
        c.warnings ++ ["WARNING: Unable to determine link text"]) := by
  constructor
  · intro hpos
    simp only [writeLinkTagWithCodeDestination, hres, hfile]
    rw [← htext, if_pos hpos]
    have h1 := writesOnly_ctxWrite c "[" hstack
    have h2 := writesOnly_ctxWrite _ (getEscapedText (collapseWhitespace text))
      (writesOnly_stack_nil h1 hstack)
    have h3 := writesOnly_ctxWrite _ ("](" ++ filename ++ ")")
      (writesOnly_stack_nil h2 (writesOnly_stack_nil h1 hstack))
    have hall := writesOnly_trans h1 (writesOnly_trans h2 h3)
    refine ⟨?_, hall.2.2.2.2.2.2⟩
    rw [hall.1]
    simp
  · intro hzero
    simp only [writeLinkTagWithCodeDestination, hres, hfile]
    rw [← htext, if_neg (by omega)]
    exact ⟨rfl, rfl⟩

/-- C1 witness: with no explicit display text the scoped name of the
resolved entity becomes the link body. -/
theorem code_link_resolved_with_filename_witness :
    ((resolvingApiModel.resolveDeclarationReference ⟨"method"⟩
        (mkContext sampleOptions).options.contextApiItem).resolvedApiItem =
      some ⟨"Foo.Bar.method()"⟩ ∧
     (mkContext sampleOptions).options.onGetFilenameForApiItem ⟨"Foo.Bar.method()"⟩ =
      some "Foo.Bar.md" ∧
     (mkContext sampleOptions).writer.indentStack = []) ∧
    ((writeLinkTagWithCodeDestination resolvingApiModel none ⟨"method"⟩
        (mkContext sampleOptions)).writer.buffer =
      [] ++ ("[" ++ getEscapedText (collapseWhitespace "Foo.Bar.method()") ++
        "](" ++ "Foo.Bar.md" ++ ")").data ∧
     (writeLinkTagWithCodeDestination resolvingApiModel none ⟨"method"⟩
        (mkContext sampleOptions)).warnings = []) :=
  ⟨⟨by decide, by decide, by decide⟩,
    (code_link_resolved_with_filename resolvingApiModel none ⟨"method"⟩
      (mkContext sampleOptions) ⟨"Foo.Bar.method()"⟩ "Foo.Bar.md"
      "Foo.Bar.method()"
      (by decide) (by decide) (by decide) (by decide)).1 (by decide)⟩

/-- C2: when resolution succeeds but the filename lookup returns nothing the
link writer is the identity — nothing is written and no warning is
reported; when resolution fails with an error message nothing is written and
one warning quoting the original symbolic reference text and the resolver's
message is recorded; both functions are total, so the render cannot abort. -/
theorem code_link_failure_handling (apiModel : ApiModel)
    (linkText : Option String) (codeDestination : DeclarationReference)
    (c : IMarkdownEmitterContext) :
    (∀ item, (apiModel.resolveDeclarationReference codeDestination
        c.options.contextApiItem).resolvedApiItem = some item →
      c.options.onGetFilenameForApiItem item = none →
      writeLinkTagWithCodeDestination apiModel linkText codeDestination c = c) ∧
    (∀ errorMessage, (apiModel.resolveDeclarationReference codeDestination
        c.options.contextApiItem).resolvedApiItem = none →
      (apiModel.resolveDeclarationReference codeDestination
        c.options.contextApiItem).errorMessage = some errorMessage →
      (writeLinkTagWithCodeDestination apiModel linkText codeDestination c).writer =
        c.writer ∧
      (writeLinkTagWithCodeDestination apiModel linkText codeDestination c).warnings =
        c.warnings ++ ["WARNING: Unable to resolve reference \"" ++
          codeDestination.emitAsTsdoc ++ "\": " ++ errorMessage]) := by
  constructor
  · intro item hres hfile
    simp only [writeLinkTagWithCodeDestination, hres, hfile]
  · intro errorMessage hres herr
    simp only [writeLinkTagWithCodeDestination, hres, herr]
    exact ⟨rfl, rfl⟩

/-- C2 witness: a resolved entity outside the documented set is dropped
silently, and a failed resolution leaves the writer untouched while
recording the quoted warning. -/
theorem code_link_failure_handling_witness :
    (writeLinkTagWithCodeDestination resolvingApiModel none ⟨"pkg.X"⟩
        (mkContext undocumentedOptions) = mkContext undocumentedOptions) ∧
    ((writeLinkTagWithCodeDestination failingApiModel none ⟨"pkg.X"⟩
        (mkContext sampleOptions)).writer = (mkContext sampleOptions).writer ∧
     (writeLinkTagWithCodeDestination failingApiModel none ⟨"pkg.X"⟩
        (mkContext sampleOptions)).warnings =
      [] ++ ["WARNING: Unable to resolve reference \"" ++ "pkg.X" ++ "\": " ++
        "The member reference was not found"]) :=
  ⟨(code_link_failure_handling resolvingApiModel none ⟨"pkg.X"⟩
      (mkContext undocumentedOptions)).1 ⟨"Foo.Bar.method()"⟩ rfl rfl,
    (code_link_failure_handling failingApiModel none ⟨"pkg.X"⟩
      (mkContext sampleOptions)).2 "The member reference was not found" rfl rfl⟩

/-- C6 witness: a level-1 heading from a fresh context renders inside `h2`
tags followed by one blank line. -/
theorem heading_tag_mapping_and_blank_line_witness :
    (mkContext sampleOptions).writer.indentStack = [] ∧
    ((1 = 1 → headingLevelTag 1 = "h2") ∧
     ((1 = 2 ∨ 1 = 3) → headingLevelTag 1 = "h3") ∧
     (4 ≤ 1 → headingLevelTag 1 = "h4") ∧
     (writeNode failingApiModel (DocNode.heading "Overview" 1)
        (mkContext sampleOptions) false).writer.buffer =
       [] ++ ("<" ++ headingLevelTag 1 ++ " class=\"doc-heading\">" ++
         getEscapedText "Overview" ++ "</" ++ headingLevelTag 1 ++ ">").data ++
       ['\n', '\n']) :=
  ⟨by decide, heading_tag_mapping_and_blank_line failingApiModel "Overview" 1
    (mkContext sampleOptions) false (by decide)⟩

/-- C9 witness: a code span keeps interior whitespace untrimmed while a
fenced block with the same text is trimmed. -/
theorem code_text_literal_and_trimming_witness :
    (mkContext sampleOptions).writer.indentStack = [] ∧
    (((writeNode failingApiModel (DocNode.codeSpan " x<y ")
        (mkContext sampleOptions) false).writer.buffer =
       [] ++ ("<code class=\"doc-code-span language-javascript\">").data ++
         (" x<y ").data ++ ("</code>").data) ∧
     ((writeNode failingApiModel (DocNode.fencedCode " x<y ")
        (mkContext sampleOptions) false).writer.buffer =
       (mkContext sampleOptions).writer.ensureNewLine.buffer ++
         ("<pre class=\"doc-fenced-code\">\n<code class=\"language-javascript\">\n").data ++
         (jsTrim " x<y ").data ++ ("</code>\n</pre>\n").data)) :=
  ⟨by decide, code_text_literal_and_trimming failingApiModel " x<y "
    (mkContext sampleOptions) false (by decide)⟩

/-- C5: an EmphasisSpan renders its children in the context whose bold and
italic flags are exactly the span's own values, and afterwards restores the
flags it found — and every node kind whatsoever leaves the two flags as it
found them, so the restoration also holds below arbitrary nesting and the
innermost enclosing span's flags are the ones any child observes. -/
theorem emphasis_span_flag_discipline (apiModel : ApiModel) :
    (∀ (bold italic : Bool) (ns : List DocNode) (c : IMarkdownEmitterContext)
        (s : Bool),
      writeNode apiModel (DocNode.emphasisSpan bold italic ns) c s =
        { writeNodes apiModel ns
            { c with boldRequested := bold, italicRequested := italic } with
          boldRequested := c.boldRequested,
          italicRequested := c.italicRequested }) ∧
    (∀ (n : DocNode) (c : IMarkdownEmitterContext) (s : Bool),
      (writeNode apiModel n c s).boldRequested = c.boldRequested ∧
      (writeNode apiModel n c s).italicRequested = c.italicRequested) := by
  constructor
  · intro bold italic ns c s
    simp only [writeNode, writeNodes]
  · intro n c s
    exact ⟨(writeNode_frame apiModel n c s).1, (writeNode_frame apiModel n c s).2.1⟩

/-- C10: after a Table node is processed the inside-table flag is
unconditionally false — the prior value is never saved — and in a row whose
first cell is itself a table, the remaining cells of the row are rendered
from a context whose inside-table flag is already false. -/
theorem table_insideTable_cleared (apiModel : ApiModel) :
    (∀ (header : Option (List DocNode)) (rows : List (List DocNode))
        (c : IMarkdownEmitterContext) (s : Bool),
      (writeNode apiModel (DocNode.table header rows) c s).insideTable = false) ∧
    (∀ (innerHeader : Option (List DocNode)) (innerRows : List (List DocNode))
        (rest : List DocNode) (c : IMarkdownEmitterContext),
      ∃ cAfter, writeRowCells apiModel
          (DocNode.table innerHeader innerRows :: rest) c =
          writeRowCells apiModel rest cAfter ∧ cAfter.insideTable = false) := by
  constructor
  · intro header rows c s
    simp only [writeNode]
  · intro innerHeader innerRows rest c
    refine ⟨ctxWrite (writeNode apiModel (DocNode.table innerHeader innerRows)
      (ctxWrite c "<td>") false) "</td>", ?_, ?_⟩
    · simp only [writeRowCells]
    · rw [ctxWrite_insideTable]
      simp only [writeNode]

theorem writeEmptyThCells_step_comm (n : Nat) (c : IMarkdownEmitterContext) :
    writeEmptyThCells n (ctxWrite (ctxWrite c "<th>") "</th>") =
      ctxWrite (ctxWrite (writeEmptyThCells n c) "<th>") "</th>" := by
  induction n generalizing c with
  | zero => rfl
  | succ k ih =>
    simp only [writeEmptyThCells]
    rw [ih]

/-- The source's indexed header loop with no header writes exactly the empty
cells. -/
theorem writeThCellsLoop_none (apiModel : ApiModel) (count : Nat)
    (c : IMarkdownEmitterContext) :
    writeThCellsLoop apiModel none count c = writeEmptyThCells count c := by
  induction count generalizing c with
  | zero => rfl
  | succ k ih =>
    unfold writeThCellsLoop
    rw [List.range_succ, List.foldl_append]
    unfold writeThCellsLoop at ih
    rw [ih]
    show ctxWrite (ctxWrite (writeEmptyThCells k c) "<th>") "</th>" = _
    rw [← writeEmptyThCells_step_comm]
    rfl

theorem writeThCellsLoop_nil (apiModel : ApiModel) (count : Nat)
    (c : IMarkdownEmitterContext) :
    writeThCellsLoop apiModel (some []) count c = writeEmptyThCells count c := by
  induction count generalizing c with
  | zero => rfl
  | succ k ih =>
    unfold writeThCellsLoop
    rw [List.range_succ, List.foldl_append]
    unfold writeThCellsLoop at ih
    rw [ih]
    show ctxWrite (ctxWrite (writeEmptyThCells k c) "<th>") "</th>" = _
    rw [← writeEmptyThCells_step_comm]
    rfl

/-- The split header rendering used in `writeNode` (all header cells, then
empty cells up to the column count) equals the source's literal indexed loop
whenever the column count is at least the number of header cells — which
`tableColumnCount` always guarantees. -/
theorem writeThCells_loop_eq (apiModel : ApiModel) (cells : List DocNode)
    (count : Nat) (c : IMarkdownEmitterContext) (h : cells.length ≤ count) :
    writeThCellsLoop apiModel (some cells) count c =
      writeEmptyThCells (count - cells.length) (writeThCells apiModel cells c) := by
  induction cells generalizing count c with
  | nil =>
    simp only [writeThCells, List.length_nil, Nat.sub_zero]
    exact writeThCellsLoop_nil apiModel count c
  | cons cell rest ih =>
    rcases count with _ | k
    · simp at h
    · have hstep : ∀ (c2 : IMarkdownEmitterContext) (i : Nat),
          writeThCellAt apiModel (some (cell :: rest)) c2 (i + 1) =
            writeThCellAt apiModel (some rest) c2 i := by
        intro c2 i
        simp only [writeThCellAt, List.getElem?_cons_succ]
      unfold writeThCellsLoop
      rw [List.range_succ_eq_map, List.foldl_cons, List.foldl_map]
      simp only [hstep]
      have hhead : writeThCellAt apiModel (some (cell :: rest)) c 0 =
          ctxWrite (writeNode apiModel cell (ctxWrite c "<th>") false) "</th>" := by
        simp only [writeThCellAt, List.getElem?_cons_zero]
      rw [hhead]
      have := ih k (ctxWrite (writeNode apiModel cell (ctxWrite c "<th>") false) "</th>")
        (by simpa using h)
      unfold writeThCellsLoop at this
      rw [this]
      simp only [writeThCells, List.length_cons, Nat.succ_sub_succ]

/-- The header's cell count never exceeds the computed column count: the
fold starts from it and only ever grows. -/
theorem tableColumnCount_fold (rows : List (List DocNode)) (init : Nat) :
    rows.foldl (fun acc row => if acc < row.length then row.length else acc) init =
      max init (maxRowWidth rows) := by
  induction rows generalizing init with
  | nil =>
    simp only [List.foldl_nil, maxRowWidth, List.map_nil, List.foldr_nil]
    omega
  | cons row rest ih =>
    show rest.foldl _ (if init < row.length then row.length else init) = _
    rw [ih]
    have hstep : (if init < row.length then row.length else init) =
        max init row.length := by
      split <;> omega
    have hmrw : maxRowWidth (row :: rest) = max row.length (maxRowWidth rest) := by
      simp [maxRowWidth]
    rw [hstep, hmrw]
    omega

theorem tableColumnCount_eq_max (header : Option (List DocNode))
    (rows : List (List DocNode)) :
    tableColumnCount header rows =
      max
        (match header with
         | some cells => cells.length
         | none => 0)
        (maxRowWidth rows) := by
  unfold tableColumnCount
  exact tableColumnCount_fold rows _

theorem header_le_tableColumnCount (header : Option (List DocNode))
    (rows : List (List DocNode)) :
    (match header with
     | some cells => cells.length
     | none => 0) ≤ tableColumnCount header rows := by
  rw [tableColumnCount_eq_max]
  exact le_max_left _ _

theorem textCellNodes_length (cells : List String) :
    (textCellNodes cells).length = cells.length := by
  simp [textCellNodes]

theorem maxRowWidth_textCellNodes (rows : List (List String)) :
    maxRowWidth (rows.map textCellNodes) = maxRowWidth rows := by
  unfold maxRowWidth
  have hcomp : (List.length ∘ textCellNodes) = (List.length : List String → Nat) := by
    funext r
    simp [textCellNodes]
  rw [List.map_map, hcomp]

theorem textTable_columnCount (header : Option (List String))
    (rows : List (List String)) :
    tableColumnCount (header.map textCellNodes) (rows.map textCellNodes) =
      specColumnCount header rows := by
  rw [tableColumnCount_eq_max, maxRowWidth_textCellNodes]
  unfold specColumnCount
  congr 1
  rcases header with _ | cells
  · rfl
  · simp [textCellNodes]

theorem writesOnly_writeEmptyThCells (n : Nat) (c : IMarkdownEmitterContext)
    (hstack : c.writer.indentStack = []) :
    WritesOnly c (writeEmptyThCells n c) (emptyThCellsText n).data := by
  induction n generalizing c with
  | zero =>
    simp only [writeEmptyThCells]
    exact writesOnly_cast (writesOnly_refl c) (by decide)
  | succ k ih =>
    simp only [writeEmptyThCells]
    have h1 := writesOnly_ctxWrite c "<th>" hstack
    have h2 := writesOnly_ctxWrite _ "</th>" (writesOnly_stack_nil h1 hstack)
    have h3 := ih _ (writesOnly_stack_nil h2 (writesOnly_stack_nil h1 hstack))
    exact writesOnly_cast (writesOnly_trans h1 (writesOnly_trans h2 h3))
      (by simp [emptyThCellsText, String.data_append])

theorem writesOnly_writeThCells_text (apiModel : ApiModel) (cells : List String)
    (c : IMarkdownEmitterContext) (hstack : c.writer.indentStack = [])
    (hb : c.boldRequested = false) (hi : c.italicRequested = false) :
    WritesOnly c (writeThCells apiModel (textCellNodes cells) c)
      (concatMapStr thCellText cells).data := by
  induction cells generalizing c with
  | nil =>
    simp only [textCellNodes, List.map_nil, writeThCells]
    exact writesOnly_cast (writesOnly_refl c) (by decide)
  | cons s0 rest ih =>
    simp only [textCellNodes, List.map_cons, writeThCells]
    have h1 := writesOnly_ctxWrite c "<th>" hstack
    have h2 : WritesOnly (ctxWrite c "<th>")
        (writeNode apiModel (DocNode.plainText s0) (ctxWrite c "<th>") false)
        (getEscapedText s0).data := by
      simp only [writeNode]
      exact writesOnly_writePlainText _ s0 (writesOnly_stack_nil h1 hstack)
        (writesOnly_bold_false h1 hb) (writesOnly_italic_false h1 hi)
    have h3 := writesOnly_ctxWrite _ "</th>"
      (writesOnly_stack_nil h2 (writesOnly_stack_nil h1 hstack))
    have h4 := ih _
      (writesOnly_stack_nil h3 (writesOnly_stack_nil h2 (writesOnly_stack_nil h1 hstack)))
      (writesOnly_bold_false h3 (writesOnly_bold_false h2 (writesOnly_bold_false h1 hb)))
      (writesOnly_italic_false h3 (writesOnly_italic_false h2 (writesOnly_italic_false h1 hi)))
    exact writesOnly_cast (writesOnly_trans h1 (writesOnly_trans h2 (writesOnly_trans h3 h4)))
      (by simp [concatMapStr, thCellText, String.data_append, List.append_assoc])

theorem writesOnly_writeRowCells_text (apiModel : ApiModel) (row : List String)
    (c : IMarkdownEmitterContext) (hstack : c.writer.indentStack = [])
    (hb : c.boldRequested = false) (hi : c.italicRequested = false) :
    WritesOnly c (writeRowCells apiModel (textCellNodes row) c)
      (concatMapStr tdCellText row).data := by
  induction row generalizing c with
  | nil =>
    simp only [textCellNodes, List.map_nil, writeRowCells]
    exact writesOnly_cast (writesOnly_refl c) (by decide)
  | cons s0 rest ih =>
    simp only [textCellNodes, List.map_cons, writeRowCells]
    have h1 := writesOnly_ctxWrite c "<td>" hstack
    have h2 : WritesOnly (ctxWrite c "<td>")
        (writeNode apiModel (DocNode.plainText s0) (ctxWrite c "<td>") false)
        (getEscapedText s0).data := by
      simp only [writeNode]
      exact writesOnly_writePlainText _ s0 (writesOnly_stack_nil h1 hstack)
        (writesOnly_bold_false h1 hb) (writesOnly_italic_false h1 hi)
    have h3 := writesOnly_ctxWrite _ "</td>"
      (writesOnly_stack_nil h2 (writesOnly_stack_nil h1 hstack))
    have h4 := ih _
      (writesOnly_stack_nil h3 (writesOnly_stack_nil h2 (writesOnly_stack_nil h1 hstack)))
      (writesOnly_bold_false h3 (writesOnly_bold_false h2 (writesOnly_bold_false h1 hb)))
      (writesOnly_italic_false h3 (writesOnly_italic_false h2 (writesOnly_italic_false h1 hi)))
    exact writesOnly_cast (writesOnly_trans h1 (writesOnly_trans h2 (writesOnly_trans h3 h4)))
      (by simp [concatMapStr, tdCellText, String.data_append, List.append_assoc])

theorem writesOnly_writeRows_text (apiModel : ApiModel) (rows : List (List String))
    (c : IMarkdownEmitterContext) (hstack : c.writer.indentStack = [])
    (hb : c.boldRequested = false) (hi : c.italicRequested = false) :
    WritesOnly c (writeRows apiModel (rows.map textCellNodes) c)
      (concatMapStr renderedTextRow rows).data := by
  induction rows generalizing c with
  | nil =>
    simp only [List.map_nil, writeRows]
    exact writesOnly_cast (writesOnly_refl c) (by decide)
  | cons row rest ih =>
    simp only [List.map_cons, writeRows]
    have h1 := writesOnly_ctxWrite c "<tr>" hstack
    have h2 := writesOnly_writeRowCells_text apiModel row _
      (writesOnly_stack_nil h1 hstack) (writesOnly_bold_false h1 hb)
      (writesOnly_italic_false h1 hi)
    have h3 := writesOnly_ctxNewline (writeRowCells apiModel (textCellNodes row)
      (ctxWrite c "<tr>"))
    have h4 := writesOnly_ctxWriteLine _ "</tr>" (writesOnly_stack_nil h3
      (writesOnly_stack_nil h2 (writesOnly_stack_nil h1 hstack)))
    have h5 := ih _
      (writesOnly_stack_nil h4 (writesOnly_stack_nil h3
        (writesOnly_stack_nil h2 (writesOnly_stack_nil h1 hstack))))
      (writesOnly_bold_false h4 (writesOnly_bold_false h3
        (writesOnly_bold_false h2 (writesOnly_bold_false h1 hb))))
      (writesOnly_italic_false h4 (writesOnly_italic_false h3
        (writesOnly_italic_false h2 (writesOnly_italic_false h1 hi))))
    exact writesOnly_cast
      (writesOnly_trans h1 (writesOnly_trans h2 (writesOnly_trans h3
        (writesOnly_trans h4 h5))))
      (by simp [concatMapStr, renderedTextRow, String.data_append, List.append_assoc])

theorem ctxWrite_writer_indentStack (c : IMarkdownEmitterContext) (s : String) :
    (ctxWrite c s).writer.indentStack = c.writer.indentStack :=
  write_indentStack c.writer s

theorem ctxWriteLine_writer_indentStack (c : IMarkdownEmitterContext) (s : String) :
    (ctxWriteLine c s).writer.indentStack = c.writer.indentStack :=
  writeLine_indentStack c.writer s

theorem ctxNewline_writer_indentStack (c : IMarkdownEmitterContext) :
    (ctxNewline c).writer.indentStack = c.writer.indentStack :=
  newline_indentStack c.writer

theorem writeEmptyThCells_indentStack (n : Nat) (c : IMarkdownEmitterContext) :
    (writeEmptyThCells n c).writer.indentStack = c.writer.indentStack :=
  (emitterFrame_writeEmptyThCells n c).2.2.2.1

theorem writeThCells_indentStack (apiModel : ApiModel) (cells : List DocNode)
    (c : IMarkdownEmitterContext) :
    (writeThCells apiModel cells c).writer.indentStack = c.writer.indentStack :=
  (writeThCells_frame apiModel cells c).2.2.2.1

theorem writeRows_indentStack (apiModel : ApiModel) (rows : List (List DocNode))
    (c : IMarkdownEmitterContext) :
    (writeRows apiModel rows c).writer.indentStack = c.writer.indentStack :=
  (writeRows_frame apiModel rows c).2.2.2.1

theorem ctxWriteLine_boldRequested (c : IMarkdownEmitterContext) (s : String) :
    (ctxWriteLine c s).boldRequested = c.boldRequested := rfl

theorem ctxWriteLine_italicRequested (c : IMarkdownEmitterContext) (s : String) :
    (ctxWriteLine c s).italicRequested = c.italicRequested := rfl

theorem ctxNewline_boldRequested (c : IMarkdownEmitterContext) :
    (ctxNewline c).boldRequested = c.boldRequested := rfl

theorem ctxNewline_italicRequested (c : IMarkdownEmitterContext) :
    (ctxNewline c).italicRequested = c.italicRequested := rfl

theorem writeEmptyThCells_boldRequested (n : Nat) (c : IMarkdownEmitterContext) :
    (writeEmptyThCells n c).boldRequested = c.boldRequested :=
  (emitterFrame_writeEmptyThCells n c).1

theorem writeEmptyThCells_italicRequested (n : Nat) (c : IMarkdownEmitterContext) :
    (writeEmptyThCells n c).italicRequested = c.italicRequested :=
  (emitterFrame_writeEmptyThCells n c).2.1

theorem writeThCells_boldRequested (apiModel : ApiModel) (cells : List DocNode)
    (c : IMarkdownEmitterContext) :
    (writeThCells apiModel cells c).boldRequested = c.boldRequested :=
  (writeThCells_frame apiModel cells c).1

theorem writeThCells_italicRequested (apiModel : ApiModel) (cells : List DocNode)
    (c : IMarkdownEmitterContext) :
    (writeThCells apiModel cells c).italicRequested = c.italicRequested :=
  (writeThCells_frame apiModel cells c).2.1

/-- Rendering a table starts by forcing a blank line and setting the
inside-table flag, and finishes by clearing the flag: this lemma undoes that
wrapper around a `WritesOnly` middle part when the blank-line step is a
no-op (empty buffer). -/
theorem writesOnly_table_wrap {c cEnd : IMarkdownEmitterContext} {t t2 : List Char}
    (hit : c.insideTable = false)
    (hesl : c.writer.ensureSkippedLine = c.writer)
    (h : WritesOnly
      { { c with writer := c.writer.ensureSkippedLine } with insideTable := true }
      cEnd t)
    (ht : t = t2) :
    WritesOnly c { cEnd with insideTable := false } t2 := by
  subst ht
  obtain ⟨hbuf, hst, hin, hbo, hita, hop, hwa⟩ := h
  refine ⟨?_, ?_, ?_, ?_, ?_, ?_, ?_⟩
  · show cEnd.writer.buffer = c.writer.buffer ++ t
    rw [hbuf]
    show c.writer.ensureSkippedLine.buffer ++ t = _
    rw [hesl]
  · show cEnd.writer.indentStack = c.writer.indentStack
    rw [hst]
    show c.writer.ensureSkippedLine.indentStack = _
    rw [ensureSkippedLine_indentStack]
  · show false = c.insideTable
    exact hit.symm
  · exact hbo
  · exact hita
  · exact hop
  · exact hwa

theorem writesOnly_ctxNewline_after {cp ccur : IMarkdownEmitterContext}
    {t : List Char} (_h : WritesOnly cp ccur t) :
    WritesOnly ccur (ctxNewline ccur) ['\n'] :=
  writesOnly_ctxNewline ccur

/-- Rendering a table of plain-text cells from a clean context appends
exactly `renderedTextTable`: the unconditional structural header sized to
the computed column count (missing header cells empty), then each data row
with exactly its own cells. -/
theorem writesOnly_writeNode_textTable (apiModel : ApiModel)
    (header : Option (List String)) (rows : List (List String))
    (c : IMarkdownEmitterContext) (hstack : c.writer.indentStack = [])
    (hb : c.boldRequested = false) (hi : c.italicRequested = false)
    (hbuf : c.writer.buffer = []) (hit : c.insideTable = false) :
    WritesOnly c (writeNode apiModel (textTableNode header rows) c false)
      (renderedTextTable header rows).data := by
  have hesl : c.writer.ensureSkippedLine = c.writer :=
    ensureSkippedLine_of_empty c.writer hbuf
  have hstack2 : ({ { c with writer := c.writer.ensureSkippedLine } with
      insideTable := true } : IMarkdownEmitterContext).writer.indentStack = [] := by
    show c.writer.ensureSkippedLine.indentStack = []
    rw [ensureSkippedLine_indentStack]
    exact hstack
  rcases header with _ | hs
  · have h1 := writesOnly_ctxWriteLine
      { { c with writer := c.writer.ensureSkippedLine } with insideTable := true }
      "<table class=\"doc-table\">" hstack2
    have s1 := writesOnly_stack_nil h1 hstack2
    have h2 := writesOnly_ctxWriteLine _ "<thead>" s1
    have s2 := writesOnly_stack_nil h2 s1
    have h3 := writesOnly_ctxWriteLine _ "<tr>" s2
    have s3 := writesOnly_stack_nil h3 s2
    have h4 := writesOnly_writeEmptyThCells
      (tableColumnCount none (rows.map textCellNodes)) _ s3
    have s4 := writesOnly_stack_nil h4 s3
    have h5 := writesOnly_ctxNewline_after h4
    have s5 := writesOnly_stack_nil h5 s4
    have h6 := writesOnly_ctxWriteLine _ "</tr>" s5
    have s6 := writesOnly_stack_nil h6 s5
    have h7 := writesOnly_ctxWriteLine _ "</thead>" s6
    have s7 := writesOnly_stack_nil h7 s6
    have b7 := writesOnly_bold_false h7 (writesOnly_bold_false h6
      (writesOnly_bold_false h5 (writesOnly_bold_false h4
        (writesOnly_bold_false h3 (writesOnly_bold_false h2
          (writesOnly_bold_false h1 hb))))))
    have i7 := writesOnly_italic_false h7 (writesOnly_italic_false h6
      (writesOnly_italic_false h5 (writesOnly_italic_false h4
        (writesOnly_italic_false h3 (writesOnly_italic_false h2
          (writesOnly_italic_false h1 hi))))))
    have h8 := writesOnly_writeRows_text apiModel rows _ s7 b7 i7
    have s8 := writesOnly_stack_nil h8 s7
    have h9 := writesOnly_ctxWriteLine _ "</table>" s8
    have hchain := writesOnly_trans h1 (writesOnly_trans h2 (writesOnly_trans h3
      (writesOnly_trans h4 (writesOnly_trans h5 (writesOnly_trans h6
        (writesOnly_trans h7 (writesOnly_trans h8 h9)))))))
    exact writesOnly_table_wrap hit hesl hchain (by
      have hcc : tableColumnCount none (rows.map textCellNodes) =
          specColumnCount none rows := by
        simpa using textTable_columnCount none rows
      rw [hcc]
      simp [renderedTextTable, renderedTextHeader, String.data_append,
        List.append_assoc])
  · have h1 := writesOnly_ctxWriteLine
      { { c with writer := c.writer.ensureSkippedLine } with insideTable := true }
      "<table class=\"doc-table\">" hstack2
    have s1 := writesOnly_stack_nil h1 hstack2
    have h2 := writesOnly_ctxWriteLine _ "<thead>" s1
    have s2 := writesOnly_stack_nil h2 s1
    have h3 := writesOnly_ctxWriteLine _ "<tr>" s2
    have s3 := writesOnly_stack_nil h3 s2
    have b3 := writesOnly_bold_false h3 (writesOnly_bold_false h2
      (writesOnly_bold_false h1 hb))
    have i3 := writesOnly_italic_false h3 (writesOnly_italic_false h2
      (writesOnly_italic_false h1 hi))
    have h4 := writesOnly_writeThCells_text apiModel hs _ s3 b3 i3
    have s4 := writesOnly_stack_nil h4 s3
    have h5 := writesOnly_writeEmptyThCells
      (tableColumnCount (some (textCellNodes hs)) (rows.map textCellNodes) -
        (textCellNodes hs).length) _ s4
    have s5 := writesOnly_stack_nil h5 s4
    have h6 := writesOnly_ctxNewline_after h5
    have s6 := writesOnly_stack_nil h6 s5
    have h7 := writesOnly_ctxWriteLine _ "</tr>" s6
    have s7 := writesOnly_stack_nil h7 s6
    have h8 := writesOnly_ctxWriteLine _ "</thead>" s7
    have s8 := writesOnly_stack_nil h8 s7
    have b8 := writesOnly_bold_false h8 (writesOnly_bold_false h7
      (writesOnly_bold_false h6 (writesOnly_bold_false h5
        (writesOnly_bold_false h4 b3))))
    have i8 := writesOnly_italic_false h8 (writesOnly_italic_false h7
      (writesOnly_italic_false h6 (writesOnly_italic_false h5
        (writesOnly_italic_false h4 i3))))
    have h9 := writesOnly_writeRows_text apiModel rows _ s8 b8 i8
    have s9 := writesOnly_stack_nil h9 s8
    have h10 := writesOnly_ctxWriteLine _ "</table>" s9
    have hchain := writesOnly_trans h1 (writesOnly_trans h2 (writesOnly_trans h3
      (writesOnly_trans h4 (writesOnly_trans h5 (writesOnly_trans h6
        (writesOnly_trans h7 (writesOnly_trans h8 (writesOnly_trans h9 h10))))))))
    exact writesOnly_table_wrap hit hesl hchain (by
      have hcc : tableColumnCount (some (textCellNodes hs)) (rows.map textCellNodes) =
          specColumnCount (some hs) rows := by
        simpa using textTable_columnCount (some hs) rows
      rw [hcc, textCellNodes_length]
      simp [renderedTextTable, renderedTextHeader, String.data_append,
        List.append_assoc])

/-- C3: the rendered column count is the maximum of the header's cell count
(0 when there is no header) and the longest data row's cell count; the
header never exceeds it (so the structural header is rendered with exactly
that many cells, missing ones empty); and a whole plain-text table renders
as `renderedTextTable`, in which each data row carries exactly its own
cells — shorter rows are not padded — while the header line is padded with
empty cells up to the column count. -/
theorem table_column_count_and_row_rendering (apiModel : ApiModel) :
    (∀ (header : Option (List DocNode)) (rows : List (List DocNode)),
      tableColumnCount header rows =
        max
          (match header with
           | some cells => cells.length
           | none => 0)
          (maxRowWidth rows)) ∧
    (∀ (header : Option (List DocNode)) (rows : List (List DocNode)),
      (match header with
       | some cells => cells.length
       | none => 0) ≤ tableColumnCount header rows) ∧
    (∀ (options : ICustomMarkdownEmitterOptions) (header : Option (List String))
        (rows : List (List String)),
      (writeNode apiModel (textTableNode header rows)
          (mkContext options) false).writer.buffer =
        (renderedTextTable header rows).data) := by
  refine ⟨tableColumnCount_eq_max, header_le_tableColumnCount, ?_⟩
  intro options header rows
  have h := writesOnly_writeNode_textTable apiModel header rows
    (mkContext options) rfl rfl rfl rfl rfl
  rw [h.1]
  simp [mkContext, IndentedWriter.empty]

theorem emitterFrame_stack_nil {c c' : IMarkdownEmitterContext}
    (h : EmitterFrame c c') (hs : c.writer.indentStack = []) :
    c'.writer.indentStack = [] := by
  rw [h.2.2.2.1]
  exact hs

theorem emitterFrame_writeThCells_after {cp ccur : IMarkdownEmitterContext}
    {t : List Char} (_h : WritesOnly cp ccur t) (apiModel : ApiModel)
    (cells : List DocNode) :
    EmitterFrame ccur (writeThCells apiModel cells ccur) :=
  writeThCells_frame apiModel cells ccur

theorem emitterFrame_writeEmptyThCells_after {cp ccur : IMarkdownEmitterContext}
    {t : List Char} (_h : WritesOnly cp ccur t) (n : Nat) :
    EmitterFrame ccur (writeEmptyThCells n ccur) :=
  emitterFrame_writeEmptyThCells n ccur

theorem emitterFrame_writeEmptyThCells_afterFrame {c c' : IMarkdownEmitterContext}
    (_h : EmitterFrame c c') (n : Nat) :
    EmitterFrame c' (writeEmptyThCells n c') :=
  emitterFrame_writeEmptyThCells n c'

theorem writesOnly_ctxNewline_afterFrame {c c' : IMarkdownEmitterContext}
    (_h : EmitterFrame c c') :
    WritesOnly c' (ctxNewline c') ['\n'] :=
  writesOnly_ctxNewline c'

theorem emitterFrame_writeRows_after {cp ccur : IMarkdownEmitterContext}
    {t : List Char} (_h : WritesOnly cp ccur t) (apiModel : ApiModel)
    (rows : List (List DocNode)) :
    EmitterFrame ccur (writeRows apiModel rows ccur) :=
  writeRows_frame apiModel rows ccur

set_option maxHeartbeats 2000000 in
/-- C4: every Table emission appends, after the blank-line adjustment, the
opening table tag and a full structural header section — even when the
logical header is absent (both branches of the theorem hold for any
`header`) — and when prior content exists, the blank-line adjustment leaves
the buffer ending in two newlines, so a blank line precedes the table. -/
theorem table_blank_line_and_structural_header (apiModel : ApiModel)
    (header : Option (List DocNode)) (rows : List (List DocNode))
    (c : IMarkdownEmitterContext) (s : Bool)
    (hstack : c.writer.indentStack = []) (hwf : c.writer.wellFormed) :
    (∃ thPart rowsPart,
      (writeNode apiModel (DocNode.table header rows) c s).writer.buffer =
        c.writer.ensureSkippedLine.buffer ++
        ("<table class=\"doc-table\">\n<thead>\n<tr>\n").data ++ thPart ++
        ("\n</tr>\n</thead>\n").data ++ rowsPart ++ ("</table>\n").data) ∧
    (c.writer.buffer ≠ [] →
      ∃ core, c.writer.ensureSkippedLine.buffer = core ++ ['\n', '\n']) := by
  have hstack2 : ({ { c with writer := c.writer.ensureSkippedLine } with
      insideTable := true } : IMarkdownEmitterContext).writer.indentStack = [] := by
    show c.writer.ensureSkippedLine.indentStack = []
    rw [ensureSkippedLine_indentStack]
    exact hstack
  constructor
  · have h1 := writesOnly_ctxWriteLine
      { { c with writer := c.writer.ensureSkippedLine } with insideTable := true }
      "<table class=\"doc-table\">" hstack2
    have s1 := writesOnly_stack_nil h1 hstack2
    have h2 := writesOnly_ctxWriteLine _ "<thead>" s1
    have s2 := writesOnly_stack_nil h2 s1
    have h3 := writesOnly_ctxWriteLine _ "<tr>" s2
    have s3 := writesOnly_stack_nil h3 s2
    rcases header with _ | cells
    · have f4 := emitterFrame_writeEmptyThCells_after h3
        (tableColumnCount none rows)
      have s4 := emitterFrame_stack_nil f4 s3
      have h5 := writesOnly_ctxNewline_afterFrame f4
      have s5 := writesOnly_stack_nil h5 s4
      have h6 := writesOnly_ctxWriteLine _ "</tr>" s5
      have s6 := writesOnly_stack_nil h6 s5
      have h7 := writesOnly_ctxWriteLine _ "</thead>" s6
      have s7 := writesOnly_stack_nil h7 s6
      have f8 := emitterFrame_writeRows_after h7 apiModel rows
      have s8 := emitterFrame_stack_nil f8 s7
      have h9 := writesOnly_ctxWriteLine _ "</table>" s8
      obtain ⟨t4, ht4⟩ := f4.2.2.2.2
      obtain ⟨t8, ht8⟩ := f8.2.2.2.2
      refine ⟨t4, t8, ?_⟩
      simp only [writeNode]
      rw [h9.1, ht8, h7.1, h6.1, h5.1, ht4, h3.1, h2.1, h1.1]
      simp [List.append_assoc]
    · have f4 := emitterFrame_trans
        (emitterFrame_writeThCells_after h3 apiModel cells)
        (emitterFrame_writeEmptyThCells_afterFrame
          (emitterFrame_writeThCells_after h3 apiModel cells)
          (tableColumnCount (some cells) rows - cells.length))
      have s4 := emitterFrame_stack_nil f4 s3
      have h5 := writesOnly_ctxNewline_afterFrame f4
      have s5 := writesOnly_stack_nil h5 s4
      have h6 := writesOnly_ctxWriteLine _ "</tr>" s5
      have s6 := writesOnly_stack_nil h6 s5
      have h7 := writesOnly_ctxWriteLine _ "</thead>" s6
      have s7 := writesOnly_stack_nil h7 s6
      have f8 := emitterFrame_writeRows_after h7 apiModel rows
      have s8 := emitterFrame_stack_nil f8 s7
      have h9 := writesOnly_ctxWriteLine _ "</table>" s8
      obtain ⟨t4, ht4⟩ := f4.2.2.2.2
      obtain ⟨t8, ht8⟩ := f8.2.2.2.2
      refine ⟨t4, t8, ?_⟩
      simp only [writeNode]
      rw [h9.1, ht8, h7.1, h6.1, h5.1, ht4, h3.1, h2.1, h1.1]
      simp [List.append_assoc]
  · intro hne
    exact ensureSkippedLine_blank c.writer hwf hne

/-- C4 witness: rendering a table with no logical header after prior output
still gets the full structural header section, preceded by a blank line. -/
theorem table_blank_line_and_structural_header_witness :
    (({ mkContext sampleOptions with writer := ⟨['x'], [], false⟩ } :
        IMarkdownEmitterContext).writer.indentStack = [] ∧
     ({ mkContext sampleOptions with writer := ⟨['x'], [], false⟩ } :
        IMarkdownEmitterContext).writer.wellFormed) ∧
    ((∃ thPart rowsPart,
        (writeNode failingApiModel (DocNode.table none [[DocNode.plainText "a"]])
            { mkContext sampleOptions with writer := ⟨['x'], [], false⟩ }
            false).writer.buffer =
          ({ mkContext sampleOptions with writer := ⟨['x'], [], false⟩ } :
            IMarkdownEmitterContext).writer.ensureSkippedLine.buffer ++
          ("<table class=\"doc-table\">\n<thead>\n<tr>\n").data ++ thPart ++
          ("\n</tr>\n</thead>\n").data ++ rowsPart ++ ("</table>\n").data) ∧
     (({ mkContext sampleOptions with writer := ⟨['x'], [], false⟩ } :
          IMarkdownEmitterContext).writer.buffer ≠ [] →
       ∃ core, ({ mkContext sampleOptions with writer := ⟨['x'], [], false⟩ } :
          IMarkdownEmitterContext).writer.ensureSkippedLine.buffer =
         core ++ ['\n', '\n'])) :=
  ⟨⟨by decide, by decide⟩,
    table_blank_line_and_structural_header failingApiModel none
      [[DocNode.plainText "a"]]
      { mkContext sampleOptions with writer := ⟨['x'], [], false⟩ }
      false (by decide) (by decide)⟩
